import Mathlib

/-!
Verification of the HTML-surgery core of `llm_editor.py`.

The program's core consists of three operations:
* `extract_html_from_llm_response` (source lines 106-135): pull an HTML
  payload out of raw model-response text, via a fenced-code-block regex
  and a tag-sniffing fallback;
* `extract_form` (source lines 180-229): detach the request-form fragment
  from a document, or synthesize a default one;
* `add_form_back` (source lines 138-178): re-insert the fragment into a
  candidate document, repairing missing structure.

The string-level operation is embedded over `List Char` / `String`, with an
executable model of the one regular expression the source uses.  The two
document-level operations work, in the source, on BeautifulSoup node trees;
they are embedded here over an explicit tree of markup nodes (`Node`), the
parse/serialize boundary being made explicit by a serializer.
-/

/-! ### Python string primitives -/

/-- The characters Python's `str.strip()` / regex `\s` treat as whitespace
(restricted to ASCII, which is all the source's inputs use). -/
def isPyWS (c : Char) : Bool :=
  c = ' ' || c = '\t' || c = '\n' || c = '\r' || c = '\x0b' || c = '\x0c'

/-- `pyStripL l` is Python's `str.strip()` on the character list `l`:
leading and trailing whitespace removed. -/
def pyStripL (l : List Char) : List Char :=
  ((l.dropWhile isPyWS).reverse.dropWhile isPyWS).reverse

/-- Python's `str.strip()`. -/
def pyStrip (s : String) : String :=
  String.mk (pyStripL s.data)

/-- Is the head character absent or non-whitespace?  (`false` on `[]`.) -/
def headNonWS : List Char → Bool
  | [] => false
  | c :: _ => !isPyWS c

/-- Is the last character non-whitespace?  (`true` on `[]`.) -/
def lastNonWS : List Char → Bool
  | [] => true
  | [c] => !isPyWS c
  | _ :: c :: r => lastNonWS (c :: r)

/-- `leadSeq pat l` holds when `pat` is a leading run of `l`. -/
def leadSeq : List Char → List Char → Bool
  | [], _ => true
  | _ :: _, [] => false
  | p :: ps, c :: cs => p = c && leadSeq ps cs

/-- `hasSeq pat l`: `pat` occurs contiguously somewhere in `l`
(Python's `pat in l`). -/
def hasSeq (pat : List Char) : List Char → Bool
  | [] => leadSeq pat []
  | c :: cs => leadSeq pat (c :: cs) || hasSeq pat cs

/-- One scanning pass of Python's `str.replace(pat, rep)`.  The counter is
the number of already-matched characters still to be skipped; at counter 0
the scanner tries to match `pat` at the current position, emits `rep` on a
match and skips the matched characters, and otherwise copies one character. -/
def repGo (pat rep : List Char) : Nat → List Char → List Char
  | _, [] => []
  | Nat.succ k, _ :: cs => repGo pat rep k cs
  | 0, c :: cs =>
    if leadSeq pat (c :: cs) then rep ++ repGo pat rep (pat.length - 1) cs
    else c :: repGo pat rep 0 cs

/-- Python's `s.replace(pat, rep)`: every non-overlapping occurrence of
`pat` in `s`, scanning left to right, is replaced by `rep`. -/
def pyReplace (s pat rep : String) : String :=
  String.mk (repGo pat.data rep.data 0 s.data)

/-! ### The fenced-code-block regex

The source compiles the single pattern
`` ```(?:html)?\s*([\s\S]*?)\s*``` `` and keeps `findall(...)[0]`, i.e. the
capture of the leftmost match.  The model below reproduces the backtracking
semantics of that concrete pattern:
* the optional `html` group is greedy, and consuming it never destroys a
  match (no later triple backtick can begin inside the letters `html`),
  so the model always consumes it when present;
* the greedy `\s*` consumes maximal whitespace (whitespace contains no
  backtick, so this, too, never destroys a match);
* the lazy capture group grows from the empty string until the remainder
  is maximal whitespace followed by a closing triple backtick. -/

/-- The backtick character. -/
def btick : Char := Char.ofNat 96

/-- The triple-backtick fence delimiter. -/
def fenceChars : List Char := [btick, btick, btick]

/-- The characters of the optional language tag `html`. -/
def htmlWord : List Char := ['h', 't', 'm', 'l']

/-- Does the remainder consist of whitespace followed by a closing fence
(the regex tail `\s*` + three backticks succeeding at this position)? -/
def isFenceAfterWS (l : List Char) : Bool :=
  leadSeq fenceChars (l.dropWhile isPyWS)

/-- The lazy capture group `([\s\S]*?)`: the shortest prefix of `l` after
which `\s*` followed by a closing fence matches; `none` when no closing
fence exists. -/
def captureUpToFence : List Char → Option (List Char)
  | [] => none
  | c :: cs =>
    if isFenceAfterWS (c :: cs) then some []
    else (captureUpToFence cs).map (fun t => c :: t)

/-- Match the regex body after an opening fence: optionally consume the
literal `html`, consume greedy whitespace, then run the lazy capture. -/
def fenceMatchAfter (l : List Char) : Option (List Char) :=
  let l1 := if leadSeq htmlWord l then l.drop 4 else l
  captureUpToFence (l1.dropWhile isPyWS)

/-- The capture of the leftmost match of the fenced-block regex in `l`
(`re.findall(...)[0]` in the source), scanning candidate start positions
left to right. -/
def findFirstFence : List Char → Option (List Char)
  | [] => none
  | c :: cs =>
    if leadSeq fenceChars (c :: cs) then
      match fenceMatchAfter (cs.drop 2) with
      | some cap => some cap
      | none => findFirstFence cs
    else findFirstFence cs

/-! ### The tag-sniffing fallback

When no fenced block matches, the source parses the full response with
BeautifulSoup's `html.parser` builder and calls `find_all` with the fixed
tag-name list `['html', 'body', 'div', 'section', 'header', 'footer',
'p', 'h1', ..., 'h6']`.  The model below is a character-level embedding
of CPython 3.11's `html.parser` tokenizer (the `goahead` loop of
`HTMLParser`), restricted to what decides whether the parse yields at
least one element with a recognized name:

* a start tag is `<`, an ASCII letter, the tolerant name/attribute
  grammar of `locatestarttagend_tolerant`, and a terminating `>` or
  `/>`; its lowercased name yields one element.  A `<` inside a quoted
  attribute value is part of the enclosing tag, not a new element;
* end tags, comments (`<!--` up to `--\s*>`), processing instructions
  (`<?` up to `>`), doctype and bogus `<!` declarations, and well-formed
  marked sections (`<![keyword ... ]]>` or `<![if ... ]>`) are skipped
  wholesale, so recognized names inside them yield no element;
* a non-self-closing `<script>`/`<style>` start tag switches the
  tokenizer to CDATA mode: everything before the matching
  `</script>`/`</style>` end tag is character data, and when no such end
  tag follows, the rest of the input is never tokenized at all;
* an incomplete construct makes the tokenizer resynchronise at the
  first `>` after the construct's opening `<`, or, failing that, at the
  next `<`;
* a marked section `<![` whose keyword is present but unrecognized makes
  `parse_marked_section` raise `AssertionError`; BeautifulSoup turns
  that into an exception, the source's `except Exception` swallows it,
  and control falls through to `HTMLExtractionError`.  The scan models
  this abort by answering `false` regardless of tags already seen. -/

/-- The recognized structural/content tag names of the source's fallback. -/
def tagNames : List String :=
  ["html", "body", "div", "section", "header", "footer", "p",
   "h1", "h2", "h3", "h4", "h5", "h6"]

/-- `lowerLeadSeq pat l`: the lowercase pattern `pat` is a leading run of
`l` compared case-insensitively (ASCII, as `Char.toLower` is). -/
def lowerLeadSeq : List Char → List Char → Bool
  | [], _ => true
  | _ :: _, [] => false
  | p :: ps, c :: cs => p = c.toLower && lowerLeadSeq ps cs

/-- An ASCII letter (the class `[a-zA-Z]` of `starttagopen` and
`tagfind_tolerant`). -/
def isAsciiLetter (c : Char) : Bool :=
  ('a' ≤ c && c ≤ 'z') || ('A' ≤ c && c ≤ 'Z')

/-- Characters that terminate a tag name: the complement of
`tagfind_tolerant`'s name class `[^\t\n\r\f />\x00]`. -/
def isTagNameStop (c : Char) : Bool :=
  c = '\t' || c = '\n' || c = '\r' || c = '\x0c' || c = ' ' || c = '/' ||
  c = '>' || c = '\x00'

/-- First character of an attribute name: `attrfind_tolerant`'s class
`[^\s/>]`. -/
def isAttrNameStart (c : Char) : Bool :=
  !(isPyWS c || c = '/' || c = '>')

/-- Continuation character of an attribute name: the class `[^\s/=>]`. -/
def isAttrNameCont (c : Char) : Bool :=
  !(isPyWS c || c = '/' || c = '=' || c = '>')

/-- The lookbehind class `['"\s/]` that must precede an attribute name. -/
def isLookbehind (c : Char) : Bool :=
  c = '\'' || c = '"' || c = '/' || isPyWS c

/-- Characters of a marked-section keyword after its leading letter:
`_declname_match`'s class `[-_.a-zA-Z0-9]`. -/
def isDeclNameChar (c : Char) : Bool :=
  isAsciiLetter c || c.isDigit || c = '-' || c = '_' || c = '.'

/-- Greedy character run (regex `X*`), tracking the last consumed
character: `spanWhile p prev l` returns the last character consumed
(or `prev` when none is) and the unconsumed remainder. -/
def spanWhile (p : Char → Bool) : Char → List Char → Char × List Char
  | prev, [] => (prev, [])
  | prev, c :: r => if p c then spanWhile p c r else (prev, c :: r)

/-- Greedy character run returning the consumed characters themselves. -/
def spanList (p : Char → Bool) : List Char → List Char × List Char
  | [] => ([], [])
  | c :: r =>
    if p c then
      let s := spanList p r
      (c :: s.1, s.2)
    else ([], c :: r)

/-- Python's `rawdata.find(x, i) + 1` as a suffix: the remainder just
after the first occurrence of `x`, or `none`. -/
def dropThrough (x : Char) : List Char → Option (List Char)
  | [] => none
  | c :: r => if c = x then some r else dropThrough x r

/-- The suffix starting at the first `<` (empty when there is none):
`goahead`'s `rawdata.find('<', i)`. -/
def suffixFromLt : List Char → List Char
  | [] => []
  | c :: r => if c = '<' then c :: r else suffixFromLt r

/-- End-of-input recovery for an incomplete construct (`goahead`'s
`k < 0` branch with `end` set): resume just after the first `>`
following the construct's `<`, else at the next `<`, else stop.  `t` is
the text after the construct's opening `<`. -/
def resyncRest (t : List Char) : List Char :=
  match dropThrough '>' t with
  | some r => r
  | none => suffixFromLt t

/-- The remainder after the closing quote `q`, or `none` when the quoted
value `q[^q]*q` is unterminated. -/
def quotedEnd (q : Char) : List Char → Option (List Char)
  | [] => none
  | c :: r => if c = q then some r else quotedEnd q r

/-- The padding `(?:\s|/(?!>))*` after a tag name or attribute:
whitespace and any `/` not directly before `>`. -/
def tagTail : Char → List Char → Char × List Char
  | prev, [] => (prev, [])
  | prev, c :: r =>
    if isPyWS c then tagTail c r
    else if c = '/' then
      match r with
      | '>' :: _ => (prev, c :: r)
      | _ => tagTail '/' r
    else (prev, c :: r)

/-- Backtracking of the value group `(\s*=+\s*(...))?` when its quoted
alternative is unterminated.  With whitespace between the `=` run and the
quote, the regex retreats into that whitespace and takes the empty bare
value (net effect: the whitespace is consumed, position `r3`).  With at
least two `=` it gives one back and reads a bare value `[^>\s]*` from the
last `=`.  Otherwise the whole optional group matches empty. -/
def attrValueBack (ws2len : Nat) (p3 : Char) (r3 : List Char) (eqlen : Nat)
    (r2 : List Char) : Option (Char × List Char) :=
  if ws2len ≠ 0 then some (p3, r3)
  else if 2 ≤ eqlen then
    let s4 := spanWhile (fun c => !(c = '>' || isPyWS c)) '=' r2
    some (spanWhile isPyWS s4.1 s4.2)
  else none

/-- The optional attribute value `(\s*=+\s*('[^']*'|"[^"]*"|(?!['"])
[^>\s]*)\s*)?` of `locatestarttagend_tolerant`: `none` means the group
matches empty (no `=`, or an unterminated quote with nothing to backtrack
into), `some` returns the last consumed character and the remainder. -/
def attrValue (prev : Char) (l : List Char) : Option (Char × List Char) :=
  let s1 := spanWhile isPyWS prev l
  match s1.2 with
  | '=' :: _ =>
    let s2 := spanWhile (fun c => c = '=') s1.1 s1.2
    let s3 := spanWhile isPyWS s2.1 s2.2
    let eqlen := s1.2.length - s2.2.length
    let ws2len := s2.2.length - s3.2.length
    match s3.2 with
    | '\'' :: t =>
      (match quotedEnd '\'' t with
       | some r4 => some (spanWhile isPyWS '\'' r4)
       | none => attrValueBack ws2len s3.1 s3.2 eqlen s2.2)
    | '"' :: t =>
      (match quotedEnd '"' t with
       | some r4 => some (spanWhile isPyWS '"' r4)
       | none => attrValueBack ws2len s3.1 s3.2 eqlen s2.2)
    | r3 =>
      let s4 := spanWhile (fun c => !(c = '>' || isPyWS c)) s3.1 r3
      some (spanWhile isPyWS s4.1 s4.2)
  | _ => none

/-- The attribute repetition of `locatestarttagend_tolerant`: while the
previous character satisfies the lookbehind `['"\s/]` and an attribute
name can start, consume name, optional value and padding.  The fuel bounds
the iteration count (each round consumes at least one character). -/
def attrLoop : Nat → Char → List Char → Char × List Char
  | 0, prev, l => (prev, l)
  | Nat.succ fuel, prev, l =>
    if isLookbehind prev then
      match l with
      | [] => (prev, [])
      | c :: r =>
        if isAttrNameStart c then
          let s1 := spanWhile isAttrNameCont c r
          match attrValue s1.1 s1.2 with
          | some (p2, r2) =>
            let s3 := tagTail p2 r2
            attrLoop fuel s3.1 s3.2
          | none =>
            let s3 := tagTail s1.1 s1.2
            attrLoop fuel s3.1 s3.2
        else (prev, c :: r)
    else (prev, l)

/-- Outcome of scanning a start tag: an element (tag name, whether
self-closing, remainder after `>`), a skipped run treated as data
(`parse_starttag`'s junk-terminator fallback), or an incomplete tag
(`check_for_whole_start_tag` returning `-1`). -/
inductive StartTagResult where
  | element (tag : List Char) (selfClosing : Bool) (rest : List Char)
  | skipped (rest : List Char)
  | incomplete

/-- `parse_starttag` with `check_for_whole_start_tag`, on input
`'<' :: c0 :: t` with `c0` an ASCII letter: tag name, padding, attribute
loop, trailing whitespace, then the terminator decides — `>` an element,
`/>` a self-closing element, end of input or a letter, `=` or lone `/`
incomplete, anything else a junk run emitted as data. -/
def parseStartTag (c0 : Char) (t : List Char) : StartTagResult :=
  let s0 := spanList (fun c => !(isTagNameStop c)) t
  let tagName := c0 :: s0.1
  let p1 := tagName.getLastD c0
  let s2 := tagTail p1 s0.2
  let s3 := attrLoop s2.2.length s2.1 s2.2
  let s4 := spanWhile isPyWS s3.1 s3.2
  match s4.2 with
  | '>' :: rest => .element tagName false rest
  | '/' :: '>' :: rest => .element tagName true rest
  | '/' :: _ => .incomplete
  | [] => .incomplete
  | c :: r => if isAsciiLetter c || c = '=' then .incomplete else .skipped (c :: r)

/-- Outcome of a marked-section scan: resume after the close, incomplete
(resynchronise), or abort the whole parse with an exception. -/
inductive StepOut where
  | cont (rest : List Char)
  | incomplete
  | abort

/-- Match `]\s*>` (`_msmarkedsectionclose`) at the head. -/
def mc1At : List Char → Option (List Char)
  | ']' :: r =>
    (let s := spanWhile isPyWS ']' r
     match s.2 with
     | '>' :: rest => some rest
     | _ => none)
  | _ => none

/-- Leftmost occurrence of `]\s*>`: the remainder after it. -/
def searchMC1 : List Char → Option (List Char)
  | [] => none
  | c :: r =>
    match mc1At (c :: r) with
    | some rest => some rest
    | none => searchMC1 r

/-- Match `]\s*]\s*>` (`_markedsectionclose`) at the head. -/
def mc2At : List Char → Option (List Char)
  | ']' :: r =>
    (let s := spanWhile isPyWS ']' r
     match s.2 with
     | ']' :: r2 =>
       (let s2 := spanWhile isPyWS ']' r2
        match s2.2 with
        | '>' :: rest => some rest
        | _ => none)
     | _ => none)
  | _ => none

/-- Leftmost occurrence of `]\s*]\s*>`: the remainder after it. -/
def searchMC2 : List Char → Option (List Char)
  | [] => none
  | c :: r =>
    match mc2At (c :: r) with
    | some rest => some rest
    | none => searchMC2 r

/-- Marked-section keywords closed by `]\s*]\s*>`. -/
def stdKeywords : List (List Char) :=
  ["temp".data, "cdata".data, "ignore".data, "include".data, "rcdata".data]

/-- MS-Office marked-section keywords closed by `]\s*>`. -/
def msKeywords : List (List Char) :=
  ["if".data, "else".data, "endif".data]

/-- `parse_marked_section` on the text `t` after `<![`: `_scan_name` wants
a letter then `[-_.a-zA-Z0-9]*\s*`; a non-letter start raises
(`abort`), a name running to the end of the buffer is incomplete.  A
recognized keyword looks for its closing pattern anywhere after `<![`
(incomplete when absent); an unrecognized keyword raises. -/
def parseMarked (t : List Char) : StepOut :=
  match t with
  | [] => .incomplete
  | c :: r =>
    if isAsciiLetter c then
      let s1 := spanList isDeclNameChar r
      let s2 := spanList isPyWS s1.2
      if s2.2.isEmpty then .incomplete
      else
        let name := (c :: s1.1).map Char.toLower
        if stdKeywords.any (fun k => k == name) then
          match searchMC2 t with
          | some rest => .cont rest
          | none => .incomplete
        else if msKeywords.any (fun k => k == name) then
          match searchMC1 t with
          | some rest => .cont rest
          | none => .incomplete
        else .abort
    else .abort

/-- Match the comment terminator `--\s*>` (`commentclose`) at the head. -/
def ccAt : List Char → Option (List Char)
  | '-' :: '-' :: r =>
    (let s := spanWhile isPyWS '-' r
     match s.2 with
     | '>' :: rest => some rest
     | _ => none)
  | _ => none

/-- Leftmost occurrence of `--\s*>`: the remainder after it. -/
def searchCC : List Char → Option (List Char)
  | [] => none
  | c :: r =>
    match ccAt (c :: r) with
    | some rest => some rest
    | none => searchCC r

/-- Strip a lowercase pattern case-insensitively from the head. -/
def stripCI : List Char → List Char → Option (List Char)
  | [], l => some l
  | _ :: _, [] => none
  | e :: es, c :: cs => if e = c.toLower then stripCI es cs else none

/-- Match the CDATA-mode terminator `</\s*elem\s*>` (the `interesting`
pattern installed by `set_cdata_mode`, case-insensitive) at the head:
the remainder after its `>`. -/
def cdataCloseAt (elem : List Char) : List Char → Option (List Char)
  | '<' :: '/' :: t =>
    (let s := spanWhile isPyWS '/' t
     match stripCI elem s.2 with
     | some t2 =>
       (let s2 := spanWhile isPyWS '/' t2
        match s2.2 with
        | '>' :: rest => some rest
        | _ => none)
     | none => none)
  | _ => none

/-- Leftmost match of `</\s*elem\s*>`: the remainder after it, or `none`
when the `<script>`/`<style>` content never ends (then `goahead` stops
consuming for good and the rest of the input is never tokenized). -/
def cdataClose (elem : List Char) : List Char → Option (List Char)
  | [] => none
  | c :: r =>
    match cdataCloseAt elem (c :: r) with
    | some rest => some rest
    | none => cdataClose elem r

/-- Is the (lowercased) tag name one of the source's recognized names? -/
def recognizedTag (tg : List Char) : Bool :=
  tagNames.any (fun n => n.data == tg)

/-- The `goahead` loop of `html.parser`, specialised to element
detection.  The second argument is the CDATA element when in CDATA mode;
`found` records whether a recognized element was produced so far.  In
normal mode, jump to the next `<` and dispatch exactly as `goahead` does:
start tag, end tag, comment, processing instruction, marked section /
doctype / bogus declaration, or a literal `<` datum.  An abort (exception
inside the parse) yields `false` no matter what was found.  The fuel is
an upper bound on the number of steps; each step consumes at least one
character, so `length + 1` always suffices. -/
def scanMarkup : Nat → Option (List Char) → Bool → List Char → Bool
  | 0, _, found, _ => found
  | Nat.succ fuel, some elem, found, l =>
    (match cdataClose elem l with
     | none => found
     | some rest => scanMarkup fuel none found rest)
  | Nat.succ fuel, none, found, l =>
    match suffixFromLt l with
    | [] => found
    | _ :: t =>
      match t with
      | [] => found
      | c :: t2 =>
        if isAsciiLetter c then
          match parseStartTag c t2 with
          | .element tagName sc rest =>
            let tg := tagName.map Char.toLower
            let found2 := found || recognizedTag tg
            if (tg == "script".data || tg == "style".data) && !sc then
              scanMarkup fuel (some tg) found2 rest
            else scanMarkup fuel none found2 rest
          | .skipped rest => scanMarkup fuel none found rest
          | .incomplete => scanMarkup fuel none found (resyncRest t)
        else if c = '/' then
          (match dropThrough '>' t2 with
           | some rest => scanMarkup fuel none found rest
           | none => scanMarkup fuel none found (resyncRest t))
        else if c = '!' then
          (match t2 with
           | '-' :: '-' :: t4 =>
             (match searchCC t4 with
              | some rest => scanMarkup fuel none found rest
              | none => scanMarkup fuel none found (resyncRest t))
           | '[' :: t3 =>
             (match parseMarked t3 with
              | .cont rest => scanMarkup fuel none found rest
              | .incomplete => scanMarkup fuel none found (resyncRest t)
              | .abort => false)
           | _ =>
             if lowerLeadSeq "doctype".data t2 then
               (match dropThrough '>' (t2.drop 7) with
                | some rest => scanMarkup fuel none found rest
                | none => scanMarkup fuel none found (resyncRest t))
             else
               (match dropThrough '>' t2 with
                | some rest => scanMarkup fuel none found rest
                | none => scanMarkup fuel none found (resyncRest t)))
        else if c = '?' then
          (match dropThrough '>' t2 with
           | some rest => scanMarkup fuel none found rest
           | none => scanMarkup fuel none found (resyncRest t))
        else
          scanMarkup fuel none found t

/-- Does parsing `l` with `html.parser` yield at least one element with a
recognized name?  This models
`BeautifulSoup(text, 'html.parser').find_all([...recognized names...])`
being nonempty, with a parse-time exception (which the source's
`except Exception` turns into the no-tag outcome) modelled as `false`. -/
def containsHtmlTag (l : List Char) : Bool :=
  scanMarkup (l.length + 1) none false l

/-- `extract_html_from_llm_response` (source lines 106-135).  First the
fenced-block regex: on a match, the first capture, stripped.  Otherwise the
tag-sniffing fallback: if the text contains a recognized tag, the whole
text, stripped.  Otherwise `HTMLExtractionError` is raised, modelled as
`Except.error ()`. -/
def extract_html_from_llm_response (response_text : String) : Except Unit String :=
  match findFirstFence response_text.data with
  | some cap => .ok (String.mk (pyStripL cap))
  | none =>
    if containsHtmlTag response_text.data then .ok (pyStrip response_text)
    else .error ()

/-! ### The document tree

`extract_form` and `add_form_back` work on BeautifulSoup trees.  The spec's
data model calls a Document "an ordered tree of markup nodes (tags,
attributes, text)"; the embedding makes that tree explicit.  A parsed soup
is a forest `List Node` (the soup object's top-level children).  The
parse/serialize boundary of the source (functions receive and return
strings) is made explicit by `serializeNode` / `serializeForest`. -/

inductive Node where
  | text (s : String) : Node
  | elem (tag : String) (attrs : List (String × String)) (children : List Node) : Node

mutual
/-- Structural equality of nodes, as a boolean. -/
def eqN : Node → Node → Bool
  | .text s, .text t => s = t
  | .elem t1 a1 c1, .elem t2 a2 c2 => t1 = t2 && a1 = a2 && eqF c1 c2
  | _, _ => false
/-- Structural equality of forests, as a boolean. -/
def eqF : List Node → List Node → Bool
  | [], [] => true
  | n :: r, m :: s => eqN n m && eqF r s
  | _, _ => false
end

/-- First value of attribute `k` in an attribute list. -/
def lookupAttr (k : String) : List (String × String) → Option String
  | [] => none
  | (k2, v) :: r => if k2 = k then some v else lookupAttr k r

/-- Is the node an element with the given tag name? -/
def tagIs (t : String) : Node → Bool
  | .elem t2 _ _ => t2 = t
  | .text _ => false

/-- `soup.find_all('button')` membership test for one node. -/
def isButton : Node → Bool := tagIs "button"

/-- `soup.find_all('input', {'type': 'text'})` membership test for one
node: an `input` element whose `type` attribute equals `text`. -/
def isTextInput : Node → Bool
  | .elem t a _ => t = "input" && lookupAttr "type" a = some "text"
  | .text _ => false

mutual
/-- Does any node of the subtree (the node itself included) satisfy `p`?
This is the recursive, preorder search of BeautifulSoup's `find`. -/
def existsNodeN (p : Node → Bool) : Node → Bool
  | .text s => p (.text s)
  | .elem t a cs => p (.elem t a cs) || existsNodeF p cs
/-- Forest version of `existsNodeN`. -/
def existsNodeF (p : Node → Bool) : List Node → Bool
  | [] => false
  | n :: r => existsNodeN p n || existsNodeF p r
end

mutual
/-- Number of nodes of the subtree satisfying `p`. -/
def countNodesN (p : Node → Bool) : Node → Nat
  | .text s => if p (.text s) then 1 else 0
  | .elem t a cs => (if p (.elem t a cs) then 1 else 0) + countNodesF p cs
/-- Number of nodes of the forest satisfying `p`. -/
def countNodesF (p : Node → Bool) : List Node → Nat
  | [] => 0
  | n :: r => countNodesN p n + countNodesF p r
end

/-- Number of subtrees of the forest structurally equal to `f`: how many
times the fragment `f` "appears in" the document. -/
def countOccF (f : Node) (l : List Node) : Nat := countNodesF (eqN f) l

/-! ### Serialization (`str(soup)`) -/

/-- Entity escaping of one text character (`&`, `<`, `>`), as
BeautifulSoup's minimal output formatter performs it. -/
def escChar (c : Char) : List Char :=
  if c = '&' then "&amp;".data
  else if c = '<' then "&lt;".data
  else if c = '>' then "&gt;".data
  else [c]

/-- Entity escaping of text nodes. -/
def escText (s : String) : String := String.mk (s.data.flatMap escChar)

/-- Entity escaping of one attribute-value character. -/
def escAChar (c : Char) : List Char :=
  if c = '"' then "&quot;".data else escChar c

/-- Entity escaping of attribute values. -/
def escAttr (s : String) : String := String.mk (s.data.flatMap escAChar)

/-- Tags serialized as empty-element (`<input .../>`) by the html.parser
tree builder. -/
def voidTags : List String :=
  ["area", "base", "br", "col", "embed", "hr", "img", "input", "keygen",
   "link", "menuitem", "meta", "param", "source", "track", "wbr"]

/-- Serialize an attribute list, one leading space per attribute. -/
def serializeAttrs : List (String × String) → String
  | [] => ""
  | (k, v) :: r => " " ++ k ++ "=\"" ++ escAttr v ++ "\"" ++ serializeAttrs r

mutual
/-- `str(tag)`: serialize a node back to markup text.  Void elements close
with `/>` and (being childless in any parsed document) serialize no
children. -/
def serializeNode : Node → String
  | .text s => escText s
  | .elem t a cs =>
    if voidTags.contains t then "<" ++ t ++ serializeAttrs a ++ "/>"
    else "<" ++ t ++ serializeAttrs a ++ ">" ++ serializeForest cs ++ "</" ++ t ++ ">"
/-- `str(soup)`: serialize a forest back to markup text. -/
def serializeForest : List Node → String
  | [] => ""
  | n :: r => serializeNode n ++ serializeForest r
end

/-! ### The Fragment Extractor (`extract_form`, source lines 180-229) -/

/-- Outcome of searching one node's subtree for a target to detach:
the node itself is the target (`selfHit`, the caller deletes it), the
target `frag` lies strictly inside and `repl` is the node with `frag`
deleted (`innerHit`), or there is no target here (`noHit`). -/
inductive NodeHit where
  | selfHit : NodeHit
  | innerHit (frag : Node) (repl : Node) : NodeHit
  | noHit : NodeHit

/-- Outcome of the text-input-parent search over a forest of siblings:
the *owner* of the forest is the selected parent (`soupHit` — at top
level the owner is the soup object itself), or the selected parent lies
inside one of the siblings (`innerHit frag repl`: `frag` detached, `repl`
the forest without it), or no hit. -/
inductive ForestHit where
  | soupHit : ForestHit
  | innerHit (frag : Node) (repl : List Node) : ForestHit
  | noHit : ForestHit

mutual
/-- `soup.find('form')` / `form.extract()`, node part: locate the first
`form` element in preorder within one subtree. -/
def extractFormN : Node → NodeHit
  | .text _ => .noHit
  | .elem t a cs =>
    if t = "form" then .selfHit
    else
      match extractFormF cs with
      | some (f, cs') => .innerHit f (.elem t a cs')
      | none => .noHit
/-- `soup.find('form')` followed by `form.extract()`: locate the first
`form` element in preorder and delete it, returning the pair
(form, document without the form), or `none` when no form exists. -/
def extractFormF : List Node → Option (Node × List Node)
  | [] => none
  | n :: r =>
    match extractFormN n with
    | .selfHit => some (n, r)
    | .innerHit f n' => some (f, n' :: r)
    | .noHit => (extractFormF r).map (fun p => (p.1, n :: p.2))
end

mutual
/-- Node part of the input+button fallback search (source lines 196-206):
the button test for an element's own children forest is recomputed from
its descendants (`parent.find('button')`). -/
def psearchN : Node → NodeHit
  | .text _ => .noHit
  | .elem t a cs =>
    match psearchF (existsNodeF isButton cs) cs with
    | .soupHit => .selfHit
    | .innerHit f cs' => .innerHit f (.elem t a cs')
    | .noHit => .noHit
/-- The input+button fallback of `extract_form` (source lines 196-206):
walk the text inputs in document order; the first one whose parent
contains a button (`parent.find('button')`, a search of the parent's
descendants) selects that parent, which is then detached
(`form.extract()`).  `hasBtn` is the button test for the forest's owner:
at top level it is `soup.find('button')`, a search of the whole document,
because the parent of a top-level input is the soup object itself. -/
def psearchF (hasBtn : Bool) : List Node → ForestHit
  | [] => .noHit
  | c :: r =>
    if isTextInput c && hasBtn then .soupHit
    else
      match psearchN c with
      | .selfHit => .innerHit c r
      | .innerHit f c' => .innerHit f (c' :: r)
      | .noHit =>
        match psearchF hasBtn r with
        | .soupHit => .soupHit
        | .innerHit f r' => .innerHit f (c :: r')
        | .noHit => .noHit
end

/-- The default-form template of the source (lines 210-220), verbatim. -/
def default_form : String := "
        <div id=\"prompt-form\" style=\"margin: 20px 0; padding: 15px; background-color: #f8f9fa; border-radius: 5px;\">
            <h3>Modify this webpage</h3>
            <form action=\"https://github.com/REPO_OWNER/REPO_NAME/issues/new\" method=\"get\" target=\"_blank\">
                <input type=\"hidden\" name=\"labels\" value=\"prompt\">
                <input type=\"text\" name=\"body\" placeholder=\"Enter your instructions...\" style=\"width: 70%; padding: 8px; margin-right: 10px;\">
                <button type=\"submit\" style=\"padding: 8px 15px; background-color: #0366d6; color: white; border: none; border-radius: 3px; cursor: pointer;\">Submit</button>
            </form>
            <p><small>Your request will be processed through GitHub Issues</small></p>
        </div>
        "

/-- The default-form template before the embedded owner value (it ends
with the issue-endpoint host prefix). -/
def dfltPre : String := "\n        <div id=\"prompt-form\" style=\"margin: 20px 0; padding: 15px; background-color: #f8f9fa; border-radius: 5px;\">\n            <h3>Modify this webpage</h3>\n            <form action=\"https://github.com/"

/-- `dfltPre` without its trailing `https://github.com/`. -/
def dfltPre0 : String := "\n        <div id=\"prompt-form\" style=\"margin: 20px 0; padding: 15px; background-color: #f8f9fa; border-radius: 5px;\">\n            <h3>Modify this webpage</h3>\n            <form action=\""

/-- The default-form template after the embedded name value (it starts
with the issue-endpoint path). -/
def dfltPost : String := "/issues/new\" method=\"get\" target=\"_blank\">\n                <input type=\"hidden\" name=\"labels\" value=\"prompt\">\n                <input type=\"text\" name=\"body\" placeholder=\"Enter your instructions...\" style=\"width: 70%; padding: 8px; margin-right: 10px;\">\n                <button type=\"submit\" style=\"padding: 8px 15px; background-color: #0366d6; color: white; border: none; border-radius: 3px; cursor: pointer;\">Submit</button>\n            </form>\n            <p><small>Your request will be processed through GitHub Issues</small></p>\n        </div>\n        "

/-- The synthesis fallback of `extract_form` (source lines 208-221).  The
module-level configuration `REPO_OWNER` / `REPO_NAME` is
`os.environ.get(...)`, hence `Option String` with *no* startup validation
anywhere in the program; `str.replace` with a `None` argument raises a
`TypeError`, modelled as `Except.error ()`.  On success the document is
returned untouched. -/
def synthDefault (owner name : Option String) (doc : List Node) :
    Except Unit (String × List Node) :=
  match owner, name with
  | some o, some n =>
    .ok (pyReplace (pyReplace default_form "REPO_OWNER" o) "REPO_NAME" n, doc)
  | _, _ => .error ()

/-- `extract_form` (source lines 180-229): find and detach the first
`form`; otherwise, if the document has both a text input and a button,
detach the parent of the first text input whose parent contains a button
(when that parent is the soup itself, `str(form)` and the remaining
`str(soup)` are both the whole document, and `extract()` on the soup is a
no-op); otherwise synthesize the default fragment and return the document
unmodified. -/
def extract_form (owner name : Option String) (doc : List Node) :
    Except Unit (String × List Node) :=
  match extractFormF doc with
  | some (f, d') => .ok (serializeNode f, d')
  | none =>
    if existsNodeF isTextInput doc && existsNodeF isButton doc then
      match psearchF (existsNodeF isButton doc) doc with
      | .soupHit => .ok (serializeForest doc, doc)
      | .innerHit f d' => .ok (serializeNode f, d')
      | .noHit => synthDefault owner name doc
    else synthDefault owner name doc

/-! ### The Fragment Re-inserter (`add_form_back`, source lines 138-178) -/

mutual
/-- Case 1 of `add_form_back`, node part: if this subtree contains a
`body` element, insert `f` as the first child of the first one in
preorder (`body_tag.insert(0, form_element)`). -/
def insBodyN (f : Node) : Node → Option Node
  | .text _ => none
  | .elem t a cs =>
    if t = "body" then some (.elem t a (f :: cs))
    else (insBodyF f cs).map (fun cs' => .elem t a cs')
/-- Case 1 of `add_form_back`, forest part: `soup.find('body')` is the
first `body` element in preorder; `none` when the document has none. -/
def insBodyF (f : Node) : List Node → Option (List Node)
  | [] => none
  | n :: r =>
    match insBodyN f n with
    | some n' => some (n' :: r)
    | none => (insBodyF f r).map (fun r' => n :: r')
end

mutual
/-- Case 2 of `add_form_back`, node part: if this subtree contains an
`html` element, append a fresh `body` whose sole child is `f` as the last
child of the first one in preorder (`html_tag.append(body_tag)`). -/
def appBodyN (f : Node) : Node → Option Node
  | .text _ => none
  | .elem t a cs =>
    if t = "html" then some (.elem t a (cs ++ [Node.elem "body" [] [f]]))
    else (appBodyF f cs).map (fun cs' => .elem t a cs')
/-- Case 2 of `add_form_back`, forest part. -/
def appBodyF (f : Node) : List Node → Option (List Node)
  | [] => none
  | n :: r =>
    match appBodyN f n with
    | some n' => some (n' :: r)
    | none => (appBodyF f r).map (fun r' => n :: r')
end

/-- The content-recovery tag set of case 3 (source line 175). -/
def contentTags : List String :=
  ["div", "section", "p", "h1", "h2", "h3", "script", "style"]

/-- Does the node match the content-recovery `find_all` of case 3? -/
def isContentTag : Node → Bool
  | .elem t _ _ => contentTags.contains t
  | .text _ => false

mutual
/-- All nodes matching the content tag set, in preorder — the (recursive)
`content_soup.find_all([...])` of case 3, which returns its matches as a
static list before any of them is moved. -/
def collectMatchesN : Node → List Node
  | .text _ => []
  | .elem t a cs =>
    (if isContentTag (.elem t a cs) then [Node.elem t a cs] else []) ++ collectMatchesF cs
/-- Forest version of `collectMatchesN`. -/
def collectMatchesF : List Node → List Node
  | [] => []
  | n :: r => collectMatchesN n ++ collectMatchesF r
end

mutual
/-- Remove, from a subtree, every maximal descendant matching the content
tag set.  In the source's case-3 loop, `soup.body.append(tag)` on a node
that is already attached first extracts it from its current parent; hence
each matched node ends up holding its original subtree minus the matched
nodes nested inside it, which are appended (moved out) by the later loop
iterations. -/
def pruneN : Node → Node
  | .text s => .text s
  | .elem t a cs => .elem t a (pruneF cs)
/-- Forest version of `pruneN`: matched children are removed wholesale
(they are moved out by their own loop iteration), unmatched children are
kept and pruned recursively. -/
def pruneF : List Node → List Node
  | [] => []
  | c :: r => (if isContentTag c then [] else [pruneN c]) ++ pruneF r
end

/-- Final shape of one matched node after the case-3 loop: its nested
matches have been moved out. -/
def stripInner : Node → Node
  | .text s => .text s
  | .elem t a cs => .elem t a (pruneF cs)

/-- The content recovered by case 3 of `add_form_back`: the matched nodes
in document order, each holding its subtree minus the deeper matches. -/
def recoveredContent (doc : List Node) : List Node :=
  (collectMatchesF doc).map stripInner

/-- `add_form_back` (source lines 138-178), with the fragment already in
element form (`form_soup.find()` on the serialized fragment).  First
matching case wins: (1) a `body` exists — insert the fragment as its first
child; (2) an `html` exists — append a new `body` holding the fragment;
(3) no structure at all — build `<html><body>` around the fragment and
append the recovered content of the candidate after it. -/
def add_form_back (form : Node) (new_doc : List Node) : List Node :=
  match insBodyF form new_doc with
  | some d' => d'
  | none =>
    match appBodyF form new_doc with
    | some d' => d'
    | none =>
      [Node.elem "html" [] [Node.elem "body" [] (form :: recoveredContent new_doc)]]

/-! ### Observation helpers used by the statements -/

mutual
/-- The first `body` element of a subtree, in preorder. -/
def firstBodyN : Node → Option Node
  | .text _ => none
  | .elem t a cs => if t = "body" then some (.elem t a cs) else firstBodyF cs
/-- The first `body` element of a forest, in preorder. -/
def firstBodyF : List Node → Option Node
  | [] => none
  | n :: r =>
    match firstBodyN n with
    | some b => some b
    | none => firstBodyF r
end

/-- The first child of the document's first `body` element. -/
def firstBodyHeadChild (l : List Node) : Option Node :=
  match firstBodyF l with
  | some (.elem _ _ (c :: _)) => some c
  | _ => none

/-- Shorthands for the structural searches of the claims. -/
def hasBodyF (l : List Node) : Bool := existsNodeF (tagIs "body") l

/-- Does the forest contain an `html` element? -/
def hasHtmlF (l : List Node) : Bool := existsNodeF (tagIs "html") l

/-- Does the forest contain a `form` element? -/
def hasFormF (l : List Node) : Bool := existsNodeF (tagIs "form") l

mutual
/-- `InsertNode f n n'`: `n'` is `n` with `f` inserted as first child of
the first `body` element of `n`'s subtree in preorder, and nothing else
changed.  This relation is the formal reading of "the only change is the
insertion": outside the path to that `body`, nodes are kept identical. -/
inductive InsertNode (f : Node) : Node → Node → Prop where
  | bodyHere (a : List (String × String)) (cs : List Node) :
      InsertNode f (.elem "body" a cs) (.elem "body" a (f :: cs))
  | deeper (t : String) (a : List (String × String)) (cs cs' : List Node)
      (ht : t ≠ "body") (h : InsertForest f cs cs') :
      InsertNode f (.elem t a cs) (.elem t a cs')
/-- Forest version of `InsertNode`: the head node receives the insertion
(when it contains the first `body` in preorder), or it contains no `body`
at all and is kept identical while the tail receives the insertion. -/
inductive InsertForest (f : Node) : List Node → List Node → Prop where
  | head (n n' : Node) (r : List Node) (h : InsertNode f n n') :
      InsertForest f (n :: r) (n' :: r)
  | tail (n : Node) (r r' : List Node)
      (hn : existsNodeN (tagIs "body") n = false) (h : InsertForest f r r') :
      InsertForest f (n :: r) (n :: r')
end

example : extract_html_from_llm_response "```html\n<p>hi</p>\n```" = .ok "<p>hi</p>" := rfl
example : extract_html_from_llm_response "before ```html\n<p>hi</p>\n``` after" = .ok "<p>hi</p>" := rfl
example : extract_html_from_llm_response "```css\nbody color red\n```" = .ok "css\nbody color red" := rfl
example : extract_html_from_llm_response "```html5\nX\n```" = .ok "5\nX" := rfl
example : extract_html_from_llm_response "``````" = .ok "" := rfl
example : extract_html_from_llm_response "```x````" = .ok "x" := rfl
example : extract_html_from_llm_response "``` ```html```" = .ok "" := rfl
example : extract_html_from_llm_response "```htm```" = .ok "htm" := rfl
example : extract_html_from_llm_response "<body>hello</body>" = .ok "<body>hello</body>" := rfl
example : extract_html_from_llm_response "no fence here" = .error () := rfl
example : extract_html_from_llm_response "a < b and b > c" = .error () := rfl
example : extract_html_from_llm_response "  <DIV>x</DIV>  " = .ok "<DIV>x</DIV>" := rfl
example : extract_html_from_llm_response "<bodyguard>" = .error () := rfl

example : extract_html_from_llm_response "<!-- <p> -->" = .error () := rfl

example : extract_html_from_llm_response "<!-- <body>hello</body> -->" = .error () := rfl

example : extract_html_from_llm_response "<script>var s = \"<p>\";</script>" = .error () := rfl

example : extract_html_from_llm_response "<a href=\"<p>\">x</a>" = .error () := rfl

example : extract_html_from_llm_response "<!-- x > <p>hi</p>" = .ok "<!-- x > <p>hi</p>" := rfl

example : extract_html_from_llm_response "<script>x</script><p>" = .ok "<script>x</script><p>" := rfl

example : extract_html_from_llm_response "<script>x</scrip><p>" = .error () := rfl

example : extract_html_from_llm_response "<![CDATA[ <p> ]]>" = .error () := rfl

example : extract_html_from_llm_response "<p>ok</p> <![bogus]>" = .error () := rfl

example : extract_html_from_llm_response "<![if x]> <p>a</p>" = .ok "<![if x]> <p>a</p>" := rfl

example : extract_html_from_llm_response "<?php echo \"<p>\"; ?>" = .error () := rfl

example : containsHtmlTag "<P One=Two>".data = true := rfl

example : containsHtmlTag "<p a=\"x>".data = false := rfl

example : containsHtmlTag "<p a=\"x> <div>t</div>".data = true := rfl

example : containsHtmlTag "<p/>".data = true := rfl

example : containsHtmlTag "<script/>x<p>".data = true := rfl

example : containsHtmlTag "<p".data = false := rfl
example : pyReplace "a REPO_OWNER b REPO_OWNER" "REPO_OWNER" "me" = "a me b me" := by decide

example :
    add_form_back (.elem "form" [] [])
      [Node.elem "body" [] [Node.elem "p" [] [Node.text "x"]]] =
    [Node.elem "body" [] [Node.elem "form" [] [], Node.elem "p" [] [Node.text "x"]]] := rfl
example :
    add_form_back (.elem "form" [] []) [Node.elem "html" [] [Node.elem "head" [] []]] =
    [Node.elem "html" [] [Node.elem "head" [] [],
      Node.elem "body" [] [Node.elem "form" [] []]]] := rfl
example :
    add_form_back (.elem "form" [] []) [Node.elem "div" [] [Node.text "hi"]] =
    [Node.elem "html" [] [Node.elem "body" []
      [Node.elem "form" [] [], Node.elem "div" [] [Node.text "hi"]]]] := rfl
example :
    add_form_back (.elem "form" [] [])
      [Node.elem "div" [] [Node.text "a", Node.elem "div" [] [Node.text "b"]]] =
    [Node.elem "html" [] [Node.elem "body" []
      [Node.elem "form" [] [], Node.elem "div" [] [Node.text "a"],
       Node.elem "div" [] [Node.text "b"]]]] := rfl
example :
    extract_form (some "O") (some "N")
      [Node.elem "body" [] [Node.elem "form" [("id", "f")] [Node.text "z"],
        Node.elem "p" [] []]] =
    .ok ("<form id=\"f\">z</form>", [Node.elem "body" [] [Node.elem "p" [] []]]) := rfl
example :
    extract_form (some "O") (some "N")
      [Node.elem "div" [] [Node.elem "input" [("type", "text")] [],
        Node.elem "button" [] [Node.text "go"]]] =
    .ok ("<div><input type=\"text\"/><button>go</button></div>", []) := rfl
example : extract_form none none [] = .error () := rfl
example :
    (extract_form (some "me") (some "repo") []).isOk = true := rfl

/-! ### Helper lemmas: the fenced-block regex on well-formed fences -/

theorem lastNonWS_tail {c : Char} {l : List Char} (h : lastNonWS (c :: l) = true) :
    lastNonWS l = true := by
  cases l with
  | nil => rfl
  | cons d r => exact h

theorem contains_tail {c d : Char} {l : List Char} (h : (c :: l).contains d = false) :
    l.contains d = false := by
  rw [List.contains_cons] at h
  exact (Bool.or_eq_false_iff.mp h).2

theorem head_ne_of_contains {c d : Char} {l : List Char}
    (h : (c :: l).contains d = false) : d ≠ c := by
  rw [List.contains_cons] at h
  have h1 := (Bool.or_eq_false_iff.mp h).1
  exact fun hc => by simp [hc] at h1

theorem btick_not_ws : isPyWS btick = false := by decide

/-- At a position inside the fenced interior (a non-empty suffix with no
backtick and a non-whitespace last character), the regex tail
`\s*` + closing fence cannot match yet, whatever follows the interior. -/
theorem isFenceAfterWS_interior (W : List Char) :
    ∀ J : List Char, J ≠ [] → J.contains btick = false → lastNonWS J = true →
      isFenceAfterWS (J ++ W) = false
  | [], h, _, _ => absurd rfl h
  | [c], _, hb, hl => by
    have hc : btick ≠ c := head_ne_of_contains hb
    have hw : isPyWS c = false := by
      have h2 := hl; simp [lastNonWS] at h2; simpa using h2
    simp [isFenceAfterWS, List.dropWhile, hw, fenceChars, leadSeq]
    intro hcb; exact absurd hcb hc
  | c :: d :: r, _, hb, hl => by
    have hc : btick ≠ c := head_ne_of_contains hb
    by_cases hw : isPyWS c
    · have ih := isFenceAfterWS_interior W (d :: r) (by simp)
        (contains_tail hb) (lastNonWS_tail hl)
      simpa [isFenceAfterWS, List.dropWhile, hw] using ih
    · simp [isFenceAfterWS, List.dropWhile, hw, fenceChars, leadSeq]
      intro hcb; exact absurd hcb hc

/-- The lazy capture group stops exactly at the end of a backtick-free
interior with non-whitespace last character, for any continuation at which
the tail `\s*` + fence matches. -/
theorem captureUpToFence_interior (W : List Char) (hW : isFenceAfterWS W = true) :
    ∀ J : List Char, J.contains btick = false → lastNonWS J = true →
      captureUpToFence (J ++ W) = some J
  | [], _, _ => by
    cases hWl : W with
    | nil => rw [hWl] at hW; simp [isFenceAfterWS, List.dropWhile, fenceChars, leadSeq] at hW
    | cons c cs =>
      rw [hWl] at hW
      simp [captureUpToFence, hW]
  | c :: J, hb, hl => by
    have hfalse : isFenceAfterWS (c :: (J ++ W)) = false :=
      isFenceAfterWS_interior W (c :: J) (by simp) hb hl
    have ih := captureUpToFence_interior W hW J (contains_tail hb) (lastNonWS_tail hl)
    simp [captureUpToFence, hfalse, ih]

/-- The regex body matches right after an opening fence when the interior
is well formed: the capture is exactly the interior. -/
theorem fenceMatchAfter_wrap (I w : List Char)
    (hb : I.contains btick = false)
    (hh : leadSeq htmlWord (I ++ (w ++ fenceChars)) = false)
    (hhead : headNonWS I = true) (hlast : lastNonWS I = true)
    (hw : isFenceAfterWS (w ++ fenceChars) = true) :
    fenceMatchAfter (I ++ (w ++ fenceChars)) = some I := by
  cases I with
  | nil => simp [headNonWS] at hhead
  | cons c J =>
    have hcw : isPyWS c = false := by simpa [headNonWS] using hhead
    have hcap : captureUpToFence ((c :: J) ++ (w ++ fenceChars)) = some (c :: J) :=
      captureUpToFence_interior (w ++ fenceChars) hw (c :: J) hb hlast
    rw [fenceMatchAfter]
    simp only [hh, Bool.false_eq_true, if_false]
    rw [show ((c :: J) ++ (w ++ fenceChars)).dropWhile isPyWS =
        (c :: J) ++ (w ++ fenceChars) by simp [List.dropWhile, hcw]]
    exact hcap

/-- A whole well-formed fenced block: opening fence, an interior that
contains no backtick, does not begin with the four letters `html`, and
has non-whitespace first and last characters, then optional whitespace
and the closing fence.  The leftmost-match capture is exactly the
interior. -/
theorem findFirstFence_wrap (I w : List Char)
    (hb : I.contains btick = false)
    (hh : leadSeq htmlWord (I ++ (w ++ fenceChars)) = false)
    (hhead : headNonWS I = true) (hlast : lastNonWS I = true)
    (hw : isFenceAfterWS (w ++ fenceChars) = true) :
    findFirstFence (fenceChars ++ (I ++ (w ++ fenceChars))) = some I := by
  have hm := fenceMatchAfter_wrap I w hb hh hhead hlast hw
  have hlead : leadSeq fenceChars
      (btick :: btick :: btick :: (I ++ (w ++ fenceChars))) = true := by
    simp [fenceChars, leadSeq]
  show findFirstFence (btick :: btick :: btick :: (I ++ (w ++ fenceChars))) = _
  rw [findFirstFence, if_pos hlead]
  rw [show (btick :: btick :: (I ++ (w ++ fenceChars))).drop 2 =
      I ++ (w ++ fenceChars) from rfl]
  rw [hm]

theorem dropWhile_eq_self_of_head {l : List Char} (h : headNonWS l = true) :
    l.dropWhile isPyWS = l := by
  cases l with
  | nil => rfl
  | cons c r =>
    have hc : isPyWS c = false := by simpa [headNonWS] using h
    simp [List.dropWhile, hc]

theorem dropWhile_length_le (p : Char → Bool) (l : List Char) :
    (l.dropWhile p).length ≤ l.length := by
  induction l with
  | nil => simp
  | cons x xs ih =>
    by_cases h : p x
    · simp [List.dropWhile, h]; omega
    · simp [List.dropWhile, h]

theorem reverse_dropWhile_of_last : ∀ l : List Char, lastNonWS l = true →
    l.reverse.dropWhile isPyWS = l.reverse
  | [], _ => rfl
  | [c], h => by
    have hc : isPyWS c = false := by simpa [lastNonWS] using h
    simp [List.dropWhile, hc]
  | c :: d :: r, h => by
    have ih := reverse_dropWhile_of_last (d :: r) h
    rw [show (c :: d :: r).reverse = (d :: r).reverse ++ [c] by simp]
    cases hrev : (d :: r).reverse with
    | nil => exact absurd hrev (by simp)
    | cons x xs =>
      rw [hrev] at ih
      have hx : isPyWS x = false := by
        by_contra hxx
        rw [Bool.not_eq_false] at hxx
        rw [List.dropWhile_cons_of_pos hxx] at ih
        have hlen := congrArg List.length ih
        have hle := dropWhile_length_le isPyWS xs
        simp at hlen; omega
      simp [List.dropWhile, hx]

/-- `str.strip()` is the identity on strings with non-whitespace first and
last characters. -/
theorem pyStripL_eq_self {l : List Char} (h1 : headNonWS l = true)
    (h2 : lastNonWS l = true) : pyStripL l = l := by
  unfold pyStripL
  rw [dropWhile_eq_self_of_head h1, reverse_dropWhile_of_last l h2, List.reverse_reverse]

theorem take_len_append (a b : List Char) : (a ++ b).take a.length = a := by
  induction a with
  | nil => rfl
  | cons x xs ih => simp [List.take, ih]

/-- Claim C4 (amended): the Response Extractor raises an extraction
error exactly when the response text contains no fenced code block and
the markup parse of the text yields no element with a recognized
structural/content name — a recognized name occurring only as a
substring does not count: tags inside comments, inside script/style
content, or inside quoted attribute values yield no element, and a
parse abort (malformed marked section) also yields none.  When there is
no fenced block and the parse does yield a recognized element, the
entire response text is returned trimmed.  The claim as stated (a
`<body>...</body>` substring suffices) is refuted by a comment-wrapped
body, which the extractor rejects. -/
theorem C4_error_iff (s : String) :
    (extract_html_from_llm_response s = .error () ↔
      findFirstFence s.data = none ∧ containsHtmlTag s.data = false) ∧
    (findFirstFence s.data = none → containsHtmlTag s.data = true →
      extract_html_from_llm_response s = .ok (pyStrip s)) := by
  unfold extract_html_from_llm_response
  constructor
  · cases h : findFirstFence s.data with
    | some cap => simp [h]
    | none => by_cases ht : containsHtmlTag s.data <;> simp [h, ht]
  · intro h1 h2
    simp [h1, h2]

/-- Witness for C4 at concrete inputs: a `<body>...</body>` payload with
no fence is returned whole and trimmed, and plain prose errors. -/
theorem C4_error_iff_witness :
    extract_html_from_llm_response "<body>hello there</body>" = .ok "<body>hello there</body>" ∧
    extract_html_from_llm_response "just plain prose" = .error () := by
  constructor
  · exact (C4_error_iff "<body>hello there</body>").2 (by decide) (by decide)
  · exact (C4_error_iff "just plain prose").1.mpr ⟨by decide, by decide⟩

/-- Counterexample to claim C4 as stated: the response
`"<!-- <body>hello</body> -->"` contains a `<body>...</body>` substring
and no fenced block, yet the extractor raises the extraction error
rather than returning the trimmed text — tags wrapped in an HTML
comment yield no element in the markup parse. -/
theorem C4_counterexample :
    hasSeq "<body>".data "<!-- <body>hello</body> -->".data = true ∧
    hasSeq "</body>".data "<!-- <body>hello</body> -->".data = true ∧
    findFirstFence "<!-- <body>hello</body> -->".data = none ∧
    extract_html_from_llm_response "<!-- <body>hello</body> -->" = .error () :=
  ⟨rfl, rfl, rfl, rfl⟩

/-- Claim C5: whenever the fenced-block regex has a (first) match, the
Response Extractor returns that capture stripped of surrounding
whitespace, independent of any prose around the block. -/
theorem C5_fenced_block (s : String) (cap : List Char)
    (h : findFirstFence s.data = some cap) :
    extract_html_from_llm_response s = .ok (String.mk (pyStripL cap)) := by
  unfold extract_html_from_llm_response
  rw [h]

/-- Witness for C5: one fenced block tagged `html`, with prose on both
sides; the trimmed interior of the block is returned. -/
theorem C5_fenced_block_witness :
    extract_html_from_llm_response "Sure thing!\n```html\n<p>blue</p>\n```\nEnjoy." =
      .ok "<p>blue</p>" :=
  C5_fenced_block _ "<p>blue</p>".data (by decide)

/-- Counterexample to claim C10 as stated: a first fenced block tagged
with the language word `html5` (a word other than `html`) does *not* keep
its language word: the regex consumes the prefix `html`, so the returned
string is `5\n<p>x</p>`, not the block content `html5\n<p>x</p>`. -/
theorem C10_counterexample :
    extract_html_from_llm_response "```html5\n<p>x</p>\n```" = .ok "5\n<p>x</p>" ∧
    "5\n<p>x</p>" ≠ "html5\n<p>x</p>" :=
  ⟨rfl, by decide⟩

/-- Claim C10 (amended): for a first fenced block whose content does not
*begin with* the four letters `html` (e.g. tagged `css`), the extractor
does not strip the language word: the returned string is the trimmed
block content with the language word still at its start.  The block
content is `lang ++ rest`, is backtick-free and starts and ends with
non-whitespace; `w` is the whitespace run before the closing fence. -/
theorem C10_language_tag_kept (lang rest w : List Char)
    (hb : (lang ++ rest).contains btick = false)
    (hh : leadSeq htmlWord ((lang ++ rest) ++ (w ++ fenceChars)) = false)
    (hhead : headNonWS (lang ++ rest) = true)
    (hlast : lastNonWS (lang ++ rest) = true)
    (hw : isFenceAfterWS (w ++ fenceChars) = true) :
    extract_html_from_llm_response
        (String.mk (fenceChars ++ ((lang ++ rest) ++ (w ++ fenceChars)))) =
      .ok (String.mk (lang ++ rest)) ∧
    (lang ++ rest).take lang.length = lang := by
  constructor
  · unfold extract_html_from_llm_response
    rw [show (String.mk (fenceChars ++ ((lang ++ rest) ++ (w ++ fenceChars)))).data =
        fenceChars ++ ((lang ++ rest) ++ (w ++ fenceChars)) from rfl]
    rw [findFirstFence_wrap (lang ++ rest) w hb hh hhead hlast hw]
    show Except.ok (String.mk (pyStripL (lang ++ rest))) = Except.ok (String.mk (lang ++ rest))
    rw [pyStripL_eq_self hhead hlast]
  · exact take_len_append lang rest

/-- Witness for the amended C10: a `css`-tagged block keeps its `css`
language word at the start of the returned string. -/
theorem C10_language_tag_kept_witness :
    extract_html_from_llm_response "```css\nbody color red\n```" = .ok "css\nbody color red" ∧
    ("css".data ++ "\nbody color red".data).take ("css".data.length) = "css".data := by
  have h := C10_language_tag_kept "css".data "\nbody color red".data "\n".data
    (by decide) (by decide) (by decide) (by decide) (by decide)
  exact ⟨h.1, h.2⟩

/-! ### Structural equality and occurrence counting -/

mutual
theorem eqN_iff : ∀ a b : Node, (eqN a b = true) ↔ a = b
  | .text s, .text t => by simp [eqN]
  | .text _, .elem _ _ _ => by simp [eqN]
  | .elem _ _ _, .text _ => by simp [eqN]
  | .elem t1 a1 c1, .elem t2 a2 c2 => by
    have ih := eqF_iff c1 c2
    simp [eqN, ih, and_assoc]
theorem eqF_iff : ∀ a b : List Node, (eqF a b = true) ↔ a = b
  | [], [] => by simp [eqF]
  | [], _ :: _ => by simp [eqF]
  | _ :: _, [] => by simp [eqF]
  | n :: r, m :: s => by
    have ih1 := eqN_iff n m
    have ih2 := eqF_iff r s
    simp [eqF, ih1, ih2]
end

theorem sizeOf_children_lt (t : String) (a : List (String × String)) (cs : List Node) :
    sizeOf cs < sizeOf (Node.elem t a cs) := by
  simp only [Node.elem.sizeOf_spec]
  omega

theorem sizeOf_head_lt (n : Node) (r : List Node) : sizeOf n < sizeOf (n :: r) := by
  simp only [List.cons.sizeOf_spec]
  omega

theorem sizeOf_tail_lt (n : Node) (r : List Node) : sizeOf r < sizeOf (n :: r) := by
  simp only [List.cons.sizeOf_spec]
  omega

mutual
theorem occ_size_N (f : Node) : ∀ m : Node, 1 ≤ countNodesN (eqN f) m → sizeOf f ≤ sizeOf m
  | .text s, h => by
    by_cases he : eqN f (.text s) = true
    · rw [eqN_iff] at he; subst he; exact Nat.le_refl _
    · simp [countNodesN, he] at h
  | .elem t a cs, h => by
    by_cases he : eqN f (.elem t a cs) = true
    · rw [eqN_iff] at he; subst he; exact Nat.le_refl _
    · rw [countNodesN, if_neg (by simp [he])] at h
      rw [Nat.zero_add] at h
      have hf := occ_size_F f cs h
      have hlt := sizeOf_children_lt t a cs
      omega
theorem occ_size_F (f : Node) : ∀ l : List Node, 1 ≤ countNodesF (eqN f) l → sizeOf f < sizeOf l
  | [], h => by simp [countNodesF] at h
  | n :: r, h => by
    rw [countNodesF] at h
    by_cases hn : 1 ≤ countNodesN (eqN f) n
    · have := occ_size_N f n hn
      have := sizeOf_head_lt n r
      omega
    · have hr : 1 ≤ countNodesF (eqN f) r := by omega
      have := occ_size_F f r hr
      have := sizeOf_tail_lt n r
      omega
end

theorem occ_zero_of_lt_N (f : Node) (m : Node) (h : sizeOf m < sizeOf f) :
    countNodesN (eqN f) m = 0 := by
  by_contra hc
  have h1 : 1 ≤ countNodesN (eqN f) m := Nat.one_le_iff_ne_zero.mpr hc
  have := occ_size_N f m h1
  omega

theorem occ_zero_of_lt_F (f : Node) (l : List Node) (h : sizeOf l < sizeOf f) :
    countNodesF (eqN f) l = 0 := by
  by_contra hc
  have h1 : 1 ≤ countNodesF (eqN f) l := Nat.one_le_iff_ne_zero.mpr hc
  have := occ_size_F f l h1
  omega

/-- A fragment occurs exactly once in itself: its strict subtrees are too
small to equal it. -/
theorem countOcc_self (f : Node) : countNodesN (eqN f) f = 1 := by
  cases f with
  | text s => simp [countNodesN, eqN_iff]
  | elem t a cs =>
    have h0 : countNodesF (eqN (Node.elem t a cs)) cs = 0 :=
      occ_zero_of_lt_F _ cs (sizeOf_children_lt t a cs)
    simp [countNodesN, eqN_iff, h0]

/-! ### Case analysis of `add_form_back` -/

mutual
theorem insBodyN_isSome (f : Node) : ∀ n, (insBodyN f n).isSome = existsNodeN (tagIs "body") n
  | .text _ => rfl
  | .elem t a cs => by
    by_cases ht : t = "body"
    · simp [insBodyN, existsNodeN, tagIs, ht]
    · have ih := insBodyF_isSome f cs
      cases hcs : insBodyF f cs with
      | some cs' => rw [hcs] at ih; simp [insBodyN, existsNodeN, tagIs, ht, hcs, ← ih]
      | none => rw [hcs] at ih; simp [insBodyN, existsNodeN, tagIs, ht, hcs, ← ih]
theorem insBodyF_isSome (f : Node) : ∀ l, (insBodyF f l).isSome = existsNodeF (tagIs "body") l
  | [] => rfl
  | n :: r => by
    have ihn := insBodyN_isSome f n
    have ihr := insBodyF_isSome f r
    cases hn : insBodyN f n with
    | some n' => rw [hn] at ihn; simp [insBodyF, hn, existsNodeF, ← ihn]
    | none =>
      rw [hn] at ihn
      cases hr : insBodyF f r with
      | some r' => rw [hr] at ihr; simp [insBodyF, hn, hr, existsNodeF, ← ihn, ← ihr]
      | none => rw [hr] at ihr; simp [insBodyF, hn, hr, existsNodeF, ← ihn, ← ihr]
end

mutual
theorem appBodyN_isSome (f : Node) : ∀ n, (appBodyN f n).isSome = existsNodeN (tagIs "html") n
  | .text _ => rfl
  | .elem t a cs => by
    by_cases ht : t = "html"
    · simp [appBodyN, existsNodeN, tagIs, ht]
    · have ih := appBodyF_isSome f cs
      cases hcs : appBodyF f cs with
      | some cs' => rw [hcs] at ih; simp [appBodyN, existsNodeN, tagIs, ht, hcs, ← ih]
      | none => rw [hcs] at ih; simp [appBodyN, existsNodeN, tagIs, ht, hcs, ← ih]
theorem appBodyF_isSome (f : Node) : ∀ l, (appBodyF f l).isSome = existsNodeF (tagIs "html") l
  | [] => rfl
  | n :: r => by
    have ihn := appBodyN_isSome f n
    have ihr := appBodyF_isSome f r
    cases hn : appBodyN f n with
    | some n' => rw [hn] at ihn; simp [appBodyF, hn, existsNodeF, ← ihn]
    | none =>
      rw [hn] at ihn
      cases hr : appBodyF f r with
      | some r' => rw [hr] at ihr; simp [appBodyF, hn, hr, existsNodeF, ← ihn, ← ihr]
      | none => rw [hr] at ihr; simp [appBodyF, hn, hr, existsNodeF, ← ihn, ← ihr]
end

theorem insBodyF_of_hasBody (f : Node) (l : List Node) (h : hasBodyF l = true) :
    ∃ l', insBodyF f l = some l' := by
  have hs := insBodyF_isSome f l
  rw [hasBodyF] at h
  rw [h] at hs
  cases hl : insBodyF f l with
  | some l' => exact ⟨l', rfl⟩
  | none => rw [hl] at hs; simp at hs

theorem insBodyF_eq_none (f : Node) (l : List Node) (h : hasBodyF l = false) :
    insBodyF f l = none := by
  have hs := insBodyF_isSome f l
  rw [hasBodyF] at h
  rw [h] at hs
  cases hl : insBodyF f l with
  | some l' => rw [hl] at hs; simp at hs
  | none => rfl

theorem appBodyF_eq_none (f : Node) (l : List Node) (h : hasHtmlF l = false) :
    appBodyF f l = none := by
  have hs := appBodyF_isSome f l
  rw [hasHtmlF] at h
  rw [h] at hs
  cases hl : appBodyF f l with
  | some l' => rw [hl] at hs; simp at hs
  | none => rfl

mutual
theorem insBodyN_insert (f : Node) : ∀ n n', insBodyN f n = some n' → InsertNode f n n'
  | .text _, _, h => by simp [insBodyN] at h
  | .elem t a cs, n', h => by
    by_cases ht : t = "body"
    · subst ht
      rw [insBodyN, if_pos rfl] at h
      cases h
      exact .bodyHere a cs
    · rw [insBodyN, if_neg ht] at h
      cases hcs : insBodyF f cs with
      | none => rw [hcs] at h; simp at h
      | some cs' =>
        rw [hcs] at h; simp at h
        subst h
        exact .deeper t a cs cs' ht (insBodyF_insert f cs cs' hcs)
theorem insBodyF_insert (f : Node) : ∀ l l', insBodyF f l = some l' → InsertForest f l l'
  | [], _, h => by simp [insBodyF] at h
  | n :: r, l', h => by
    rw [insBodyF] at h
    cases hn : insBodyN f n with
    | some n' =>
      rw [hn] at h; simp at h
      subst h
      exact .head n n' r (insBodyN_insert f n n' hn)
    | none =>
      rw [hn] at h
      cases hr : insBodyF f r with
      | none => rw [hr] at h; simp at h
      | some r' =>
        rw [hr] at h; simp at h
        subst h
        have hnb : existsNodeN (tagIs "body") n = false := by
          have hs := insBodyN_isSome f n
          rw [hn] at hs; simpa using hs.symm
        exact .tail n r r' hnb (insBodyF_insert f r r' hr)
end

mutual
theorem noBody_firstBodyN (n : Node) (h : existsNodeN (tagIs "body") n = false) :
    firstBodyN n = none := by
  cases n with
  | text s => rfl
  | elem t a cs =>
    rw [existsNodeN] at h
    have h1 : (tagIs "body" (Node.elem t a cs)) = false := by
      cases hb : tagIs "body" (Node.elem t a cs) with
      | false => rfl
      | true => rw [hb] at h; simp at h
    have h2 : existsNodeF (tagIs "body") cs = false := by
      cases hb : existsNodeF (tagIs "body") cs with
      | false => rfl
      | true => rw [hb] at h; simp at h
    have ht : t ≠ "body" := by
      intro hteq; rw [tagIs] at h1; simp [hteq] at h1
    rw [firstBodyN, if_neg ht]
    exact noBody_firstBodyF cs h2
theorem noBody_firstBodyF (l : List Node) (h : existsNodeF (tagIs "body") l = false) :
    firstBodyF l = none := by
  cases l with
  | nil => rfl
  | cons n r =>
    rw [existsNodeF] at h
    have h1 : existsNodeN (tagIs "body") n = false := by
      cases hb : existsNodeN (tagIs "body") n with
      | false => rfl
      | true => rw [hb] at h; simp at h
    have h2 : existsNodeF (tagIs "body") r = false := by
      cases hb : existsNodeF (tagIs "body") r with
      | false => rfl
      | true => rw [hb] at h; simp at h
    rw [firstBodyF, noBody_firstBodyN n h1]
    exact noBody_firstBodyF r h2
end

mutual
theorem insBodyN_firstBody (f : Node) : ∀ n n', insBodyN f n = some n' →
    ∃ a cs, firstBodyN n' = some (.elem "body" a (f :: cs))
  | .text _, _, h => by simp [insBodyN] at h
  | .elem t a cs, n', h => by
    by_cases ht : t = "body"
    · subst ht
      rw [insBodyN, if_pos rfl] at h
      cases h
      exact ⟨a, cs, by rw [firstBodyN, if_pos rfl]⟩
    · rw [insBodyN, if_neg ht] at h
      cases hcs : insBodyF f cs with
      | none => rw [hcs] at h; simp at h
      | some cs' =>
        rw [hcs] at h; simp at h
        subst h
        have ⟨a2, cs2, hfb⟩ := insBodyF_firstBody f cs cs' hcs
        exact ⟨a2, cs2, by rw [firstBodyN, if_neg ht]; exact hfb⟩
theorem insBodyF_firstBody (f : Node) : ∀ l l', insBodyF f l = some l' →
    ∃ a cs, firstBodyF l' = some (.elem "body" a (f :: cs))
  | [], _, h => by simp [insBodyF] at h
  | n :: r, l', h => by
    rw [insBodyF] at h
    cases hn : insBodyN f n with
    | some n' =>
      rw [hn] at h; simp at h
      subst h
      have ⟨a2, cs2, hfb⟩ := insBodyN_firstBody f n n' hn
      exact ⟨a2, cs2, by rw [firstBodyF, hfb]⟩
    | none =>
      rw [hn] at h
      cases hr : insBodyF f r with
      | none => rw [hr] at h; simp at h
      | some r' =>
        rw [hr] at h; simp at h
        subst h
        have hnb : existsNodeN (tagIs "body") n = false := by
          have hs := insBodyN_isSome f n
          rw [hn] at hs; simpa using hs.symm
        have ⟨a2, cs2, hfb⟩ := insBodyF_firstBody f r r' hr
        exact ⟨a2, cs2, by rw [firstBodyF, noBody_firstBodyN n hnb]; exact hfb⟩
end

/-- Claim C9: when the candidate document already contains a body node,
the Fragment Re-inserter's only change is inserting the fragment as the
first child of the first `body` in preorder; every other node is kept
identical, in place. -/
theorem C9_insert_only_change (f : Node) (doc : List Node) (h : hasBodyF doc = true) :
    InsertForest f doc (add_form_back f doc) := by
  obtain ⟨d', hd⟩ := insBodyF_of_hasBody f doc h
  unfold add_form_back
  rw [hd]
  exact insBodyF_insert f doc d' hd

/-- Witness for C9: a document with head content and a body. -/
theorem C9_insert_only_change_witness :
    InsertForest (Node.elem "form" [] [])
      [Node.elem "html" [] [Node.elem "head" [] [Node.elem "title" [] [Node.text "t"]],
        Node.elem "body" [] [Node.elem "p" [] [Node.text "x"]]]]
      (add_form_back (Node.elem "form" [] [])
        [Node.elem "html" [] [Node.elem "head" [] [Node.elem "title" [] [Node.text "t"]],
          Node.elem "body" [] [Node.elem "p" [] [Node.text "x"]]]]) :=
  C9_insert_only_change _ _ (by decide)

/-- Counterexample to claim C3 as stated: with absent owner/name
configuration (no startup validation exists anywhere in the program), the
synthesis fallback of the Fragment Extractor raises a `TypeError` at
runtime (`str.replace` applied to `None`); the extractor does *not*
always succeed. -/
theorem C3_counterexample : extract_form none none [] = .error () := rfl

/-- Claim C3 (amended): whenever the owner and name configuration values
are present, the Fragment Extractor succeeds on every document and
returns a (fragment, document) pair; no branch can fail. -/
theorem C3_succeeds_when_configured (o n : String) (doc : List Node) :
    ∃ r, extract_form (some o) (some n) doc = .ok r := by
  unfold extract_form synthDefault
  split
  · exact ⟨_, rfl⟩
  · split
    · split
      · exact ⟨_, rfl⟩
      · exact ⟨_, rfl⟩
      · exact ⟨_, rfl⟩
    · exact ⟨_, rfl⟩

/-! ### Occurrence counting through `add_form_back` -/

theorem countNodesF_append (p : Node → Bool) (a b : List Node) :
    countNodesF p (a ++ b) = countNodesF p a + countNodesF p b := by
  induction a with
  | nil => simp [countNodesF]
  | cons n r ih => rw [List.cons_append, countNodesF, countNodesF, ih]; omega

theorem existsNodeF_append (p : Node → Bool) (a b : List Node) :
    existsNodeF p (a ++ b) = (existsNodeF p a || existsNodeF p b) := by
  induction a with
  | nil => simp [existsNodeF]
  | cons n r ih => rw [List.cons_append, existsNodeF, existsNodeF, ih, Bool.or_assoc]

mutual
theorem insBodyN_hasBody (f : Node) : ∀ n n', insBodyN f n = some n' →
    existsNodeN (tagIs "body") n' = true
  | .text _, _, h => by simp [insBodyN] at h
  | .elem t a cs, n', h => by
    by_cases ht : t = "body"
    · subst ht; rw [insBodyN, if_pos rfl] at h; cases h
      simp [existsNodeN, tagIs]
    · rw [insBodyN, if_neg ht] at h
      cases hcs : insBodyF f cs with
      | none => rw [hcs] at h; simp at h
      | some cs' =>
        rw [hcs] at h; simp at h; subst h
        have ih := insBodyF_hasBody f cs cs' hcs
        simp [existsNodeN, ih]
theorem insBodyF_hasBody (f : Node) : ∀ l l', insBodyF f l = some l' →
    existsNodeF (tagIs "body") l' = true
  | [], _, h => by simp [insBodyF] at h
  | n :: r, l', h => by
    rw [insBodyF] at h
    cases hn : insBodyN f n with
    | some n' =>
      rw [hn] at h; simp at h; subst h
      have ih := insBodyN_hasBody f n n' hn
      simp [existsNodeF, ih]
    | none =>
      rw [hn] at h
      cases hr : insBodyF f r with
      | none => rw [hr] at h; simp at h
      | some r' =>
        rw [hr] at h; simp at h; subst h
        have ih := insBodyF_hasBody f r r' hr
        simp [existsNodeF, ih]
end

mutual
theorem insBodyN_count_ge (f : Node) : ∀ n n', insBodyN f n = some n' →
    1 ≤ countNodesN (eqN f) n'
  | .text _, _, h => by simp [insBodyN] at h
  | .elem t a cs, n', h => by
    by_cases ht : t = "body"
    · subst ht; rw [insBodyN, if_pos rfl] at h; cases h
      have hself := countOcc_self f
      rw [countNodesN, countNodesF]
      omega
    · rw [insBodyN, if_neg ht] at h
      cases hcs : insBodyF f cs with
      | none => rw [hcs] at h; simp at h
      | some cs' =>
        rw [hcs] at h; simp at h; subst h
        have ih := insBodyF_count_ge f cs cs' hcs
        rw [countNodesN]
        omega
theorem insBodyF_count_ge (f : Node) : ∀ l l', insBodyF f l = some l' →
    1 ≤ countNodesF (eqN f) l'
  | [], _, h => by simp [insBodyF] at h
  | n :: r, l', h => by
    rw [insBodyF] at h
    cases hn : insBodyN f n with
    | some n' =>
      rw [hn] at h; simp at h; subst h
      have ih := insBodyN_count_ge f n n' hn
      rw [countNodesF]
      omega
    | none =>
      rw [hn] at h
      cases hr : insBodyF f r with
      | none => rw [hr] at h; simp at h
      | some r' =>
        rw [hr] at h; simp at h; subst h
        have ih := insBodyF_count_ge f r r' hr
        rw [countNodesF]
        omega
end

mutual
theorem insBodyN_count_one (f : Node) : ∀ n n', insBodyN f n = some n' →
    countNodesN (eqN f) n = 0 → countNodesN (eqN f) n' = 1
  | .text _, _, h, _ => by simp [insBodyN] at h
  | .elem t a cs, n', h, h0 => by
    by_cases ht : t = "body"
    · subst ht; rw [insBodyN, if_pos rfl] at h; cases h
      rw [countNodesN] at h0
      have h0' : countNodesF (eqN f) cs = 0 := by omega
      have hself := countOcc_self f
      have hne : eqN f (Node.elem "body" a (f :: cs)) = false := by
        cases hq : eqN f (Node.elem "body" a (f :: cs)) with
        | false => rfl
        | true =>
          rw [eqN_iff] at hq
          have h1 : sizeOf f < sizeOf (Node.elem "body" a (f :: cs)) :=
            Nat.lt_trans (sizeOf_head_lt f cs) (sizeOf_children_lt _ _ _)
          rw [← hq] at h1
          omega
      rw [countNodesN, countNodesF, hne, h0', hself]
      simp
    · rw [insBodyN, if_neg ht] at h
      cases hcs : insBodyF f cs with
      | none => rw [hcs] at h; simp at h
      | some cs' =>
        rw [hcs] at h; simp at h; subst h
        rw [countNodesN] at h0
        have h0' : countNodesF (eqN f) cs = 0 := by omega
        have ih := insBodyF_count_one f cs cs' hcs h0'
        have hne : eqN f (Node.elem t a cs') = false := by
          cases hq : eqN f (Node.elem t a cs') with
          | false => rfl
          | true =>
            rw [eqN_iff] at hq
            have hge : 1 ≤ countNodesF (eqN f) cs' := by omega
            have h1 := occ_size_F f cs' hge
            have h2 := sizeOf_children_lt t a cs'
            rw [← hq] at h2
            omega
        rw [countNodesN, hne, ih]
        simp
theorem insBodyF_count_one (f : Node) : ∀ l l', insBodyF f l = some l' →
    countNodesF (eqN f) l = 0 → countNodesF (eqN f) l' = 1
  | [], _, h, _ => by simp [insBodyF] at h
  | n :: r, l', h, h0 => by
    rw [insBodyF] at h
    rw [countNodesF] at h0
    cases hn : insBodyN f n with
    | some n' =>
      rw [hn] at h; simp at h; subst h
      have h0a : countNodesN (eqN f) n = 0 := by omega
      have h0b : countNodesF (eqN f) r = 0 := by omega
      have ih := insBodyN_count_one f n n' hn h0a
      rw [countNodesF, ih, h0b]
    | none =>
      rw [hn] at h
      cases hr : insBodyF f r with
      | none => rw [hr] at h; simp at h
      | some r' =>
        rw [hr] at h; simp at h; subst h
        have h0a : countNodesN (eqN f) n = 0 := by omega
        have h0b : countNodesF (eqN f) r = 0 := by omega
        have ih := insBodyF_count_one f r r' hr h0b
        rw [countNodesF, ih, h0a]
end

mutual
theorem appBodyN_hasBody (f : Node) : ∀ n n', appBodyN f n = some n' →
    existsNodeN (tagIs "body") n' = true
  | .text _, _, h => by simp [appBodyN] at h
  | .elem t a cs, n', h => by
    by_cases ht : t = "html"
    · subst ht; rw [appBodyN, if_pos rfl] at h; cases h
      rw [existsNodeN, existsNodeF_append]
      simp [existsNodeF, existsNodeN, tagIs]
    · rw [appBodyN, if_neg ht] at h
      cases hcs : appBodyF f cs with
      | none => rw [hcs] at h; simp at h
      | some cs' =>
        rw [hcs] at h; simp at h; subst h
        have ih := appBodyF_hasBody f cs cs' hcs
        simp [existsNodeN, ih]
theorem appBodyF_hasBody (f : Node) : ∀ l l', appBodyF f l = some l' →
    existsNodeF (tagIs "body") l' = true
  | [], _, h => by simp [appBodyF] at h
  | n :: r, l', h => by
    rw [appBodyF] at h
    cases hn : appBodyN f n with
    | some n' =>
      rw [hn] at h; simp at h; subst h
      have ih := appBodyN_hasBody f n n' hn
      simp [existsNodeF, ih]
    | none =>
      rw [hn] at h
      cases hr : appBodyF f r with
      | none => rw [hr] at h; simp at h
      | some r' =>
        rw [hr] at h; simp at h; subst h
        have ih := appBodyF_hasBody f r r' hr
        simp [existsNodeF, ih]
end

mutual
theorem appBodyN_count_ge (f : Node) : ∀ n n', appBodyN f n = some n' →
    1 ≤ countNodesN (eqN f) n'
  | .text _, _, h => by simp [appBodyN] at h
  | .elem t a cs, n', h => by
    by_cases ht : t = "html"
    · subst ht; rw [appBodyN, if_pos rfl] at h; cases h
      have hself := countOcc_self f
      simp only [countNodesN, countNodesF, countNodesF_append]
      omega
    · rw [appBodyN, if_neg ht] at h
      cases hcs : appBodyF f cs with
      | none => rw [hcs] at h; simp at h
      | some cs' =>
        rw [hcs] at h; simp at h; subst h
        have ih := appBodyF_count_ge f cs cs' hcs
        rw [countNodesN]
        omega
theorem appBodyF_count_ge (f : Node) : ∀ l l', appBodyF f l = some l' →
    1 ≤ countNodesF (eqN f) l'
  | [], _, h => by simp [appBodyF] at h
  | n :: r, l', h => by
    rw [appBodyF] at h
    cases hn : appBodyN f n with
    | some n' =>
      rw [hn] at h; simp at h; subst h
      have ih := appBodyN_count_ge f n n' hn
      rw [countNodesF]
      omega
    | none =>
      rw [hn] at h
      cases hr : appBodyF f r with
      | none => rw [hr] at h; simp at h
      | some r' =>
        rw [hr] at h; simp at h; subst h
        have ih := appBodyF_count_ge f r r' hr
        rw [countNodesF]
        omega
end

/-- Counterexample to claim C2 as stated: for a candidate that already
echoes the fragment inside its body, the output of the Fragment
Re-inserter contains the fragment *twice*, and (case 1 leaving the
candidate's structure untouched) contains no `html` root element at all. -/
theorem C2_counterexample :
    add_form_back (Node.elem "form" [("id", "x")] [])
        [Node.elem "body" [] [Node.elem "form" [("id", "x")] []]] =
      [Node.elem "body" [] [Node.elem "form" [("id", "x")] [],
        Node.elem "form" [("id", "x")] []]] ∧
    hasHtmlF (add_form_back (Node.elem "form" [("id", "x")] [])
        [Node.elem "body" [] [Node.elem "form" [("id", "x")] []]]) = false ∧
    countOccF (Node.elem "form" [("id", "x")] [])
        (add_form_back (Node.elem "form" [("id", "x")] [])
          [Node.elem "body" [] [Node.elem "form" [("id", "x")] []]]) = 2 :=
  ⟨rfl, rfl, rfl⟩

/-- Claim C2 (amended): for every fragment and every candidate document,
however malformed, the output of the Fragment Re-inserter contains a
`body` element and contains the fragment at least once; it contains the
fragment exactly once whenever the candidate has a `body` and does not
already contain a copy of the fragment.  (An `html` root and global
uniqueness are *not* guaranteed: see the counterexample.) -/
theorem C2_body_and_fragment_present (f : Node) (doc : List Node) :
    hasBodyF (add_form_back f doc) = true ∧
    1 ≤ countOccF f (add_form_back f doc) ∧
    (hasBodyF doc = true → countOccF f doc = 0 →
      countOccF f (add_form_back f doc) = 1) := by
  unfold add_form_back
  cases hd : insBodyF f doc with
  | some d' =>
    refine ⟨insBodyF_hasBody f doc d' hd, insBodyF_count_ge f doc d' hd, ?_⟩
    intro _ h0
    exact insBodyF_count_one f doc d' hd h0
  | none =>
    have hnb : hasBodyF doc = false := by
      have hs := insBodyF_isSome f doc
      rw [hd] at hs
      rw [hasBodyF]
      simpa using hs.symm
    cases ha : appBodyF f doc with
    | some d' =>
      refine ⟨appBodyF_hasBody f doc d' ha, appBodyF_count_ge f doc d' ha, ?_⟩
      intro hb _
      rw [hnb] at hb
      simp at hb
    | none =>
      refine ⟨?_, ?_, ?_⟩
      · simp [hasBodyF, existsNodeF, existsNodeN, tagIs]
      · have hself := countOcc_self f
        simp only [countOccF, countNodesF, countNodesN]
        omega
      · intro hb _
        rw [hnb] at hb
        simp at hb

/-- Witness for the amended C2: a fresh fragment into a body-bearing
candidate appears exactly once, and a body is present. -/
theorem C2_body_and_fragment_present_witness :
    hasBodyF (add_form_back (Node.elem "form" [] [])
      [Node.elem "body" [] [Node.elem "p" [] [Node.text "x"]]]) = true ∧
    countOccF (Node.elem "form" [] [])
      (add_form_back (Node.elem "form" [] [])
        [Node.elem "body" [] [Node.elem "p" [] [Node.text "x"]]]) = 1 :=
  ⟨(C2_body_and_fragment_present (Node.elem "form" [] [])
      [Node.elem "body" [] [Node.elem "p" [] [Node.text "x"]]]).1,
   (C2_body_and_fragment_present (Node.elem "form" [] [])
      [Node.elem "body" [] [Node.elem "p" [] [Node.text "x"]]]).2.2 (by decide) (by decide)⟩

/-- Claim C1 (amended): for a source document whose first `form` is
detached by the Fragment Extractor such that the fragment-free document
still has a `body`, re-inserting the fragment yields the fragment-free
document with the fragment as the first child of its first `body` and
everything else unchanged (`InsertForest`), and the fragment's serialized
content — the string the extractor returned — reappears byte-identically
as the serialization of that first body child. -/
theorem C1_round_trip (o n : Option String) (doc : List Node) (f : Node) (d' : List Node)
    (h1 : extractFormF doc = some (f, d')) (h2 : hasBodyF d' = true) :
    extract_form o n doc = .ok (serializeNode f, d') ∧
    InsertForest f d' (add_form_back f d') ∧
    (firstBodyHeadChild (add_form_back f d')).map serializeNode = some (serializeNode f) := by
  obtain ⟨d'', hd⟩ := insBodyF_of_hasBody f d' h2
  have hins := insBodyF_insert f d' d'' hd
  have ⟨a2, cs2, hfb⟩ := insBodyF_firstBody f d' d'' hd
  refine ⟨?_, ?_, ?_⟩
  · unfold extract_form
    rw [h1]
  · unfold add_form_back
    rw [hd]
    exact hins
  · unfold add_form_back
    rw [hd]
    show (firstBodyHeadChild d'').map serializeNode = _
    rw [firstBodyHeadChild, hfb]
    rfl

/-- Witness for the amended C1 on a full concrete page. -/
theorem C1_round_trip_witness :
    extract_form (some "O") (some "N")
        [Node.elem "html" [] [Node.elem "body" []
          [Node.elem "form" [("id", "f")] [Node.text "z"], Node.elem "p" [] []]]] =
      .ok ("<form id=\"f\">z</form>",
        [Node.elem "html" [] [Node.elem "body" [] [Node.elem "p" [] []]]]) ∧
    InsertForest (Node.elem "form" [("id", "f")] [Node.text "z"])
      [Node.elem "html" [] [Node.elem "body" [] [Node.elem "p" [] []]]]
      (add_form_back (Node.elem "form" [("id", "f")] [Node.text "z"])
        [Node.elem "html" [] [Node.elem "body" [] [Node.elem "p" [] []]]]) ∧
    (firstBodyHeadChild (add_form_back (Node.elem "form" [("id", "f")] [Node.text "z"])
        [Node.elem "html" [] [Node.elem "body" [] [Node.elem "p" [] []]]])).map
      serializeNode = some "<form id=\"f\">z</form>" :=
  C1_round_trip (some "O") (some "N")
    [Node.elem "html" [] [Node.elem "body" []
      [Node.elem "form" [("id", "f")] [Node.text "z"], Node.elem "p" [] []]]]
    (Node.elem "form" [("id", "f")] [Node.text "z"])
    [Node.elem "html" [] [Node.elem "body" [] [Node.elem "p" [] []]]]
    rfl (by decide)

/-- Counterexample to claim C1 as stated: a source document that contains
a form and a body — but the body *inside* the form.  Extraction removes
the body along with the form, so case 1 of the re-inserter is not
applicable (the fragment-free document has no body), and the round trip
instead builds a fresh skeleton: the result has two `body` elements where
the original had one, so it is not the original with the form moved to
the first body position. -/
theorem C1_counterexample :
    hasFormF [Node.elem "form" [] [Node.elem "body" [] []]] = true ∧
    hasBodyF [Node.elem "form" [] [Node.elem "body" [] []]] = true ∧
    extract_form none none [Node.elem "form" [] [Node.elem "body" [] []]] =
      .ok ("<form><body></body></form>", []) ∧
    hasBodyF ([] : List Node) = false ∧
    add_form_back (Node.elem "form" [] [Node.elem "body" [] []]) [] =
      [Node.elem "html" [] [Node.elem "body" []
        [Node.elem "form" [] [Node.elem "body" [] []]]]] ∧
    countNodesF (tagIs "body")
      (add_form_back (Node.elem "form" [] [Node.elem "body" [] []]) []) = 2 ∧
    countNodesF (tagIs "body") [Node.elem "form" [] [Node.elem "body" [] []]] = 1 :=
  ⟨rfl, rfl, rfl, rfl, rfl, rfl, rfl⟩

/-! ### Invariants of the input-parent search -/

mutual
theorem extractFormN_noHit : ∀ n : Node, existsNodeN (tagIs "form") n = false →
    extractFormN n = .noHit
  | .text _, _ => rfl
  | .elem t a cs, h => by
    rw [existsNodeN] at h
    rw [Bool.or_eq_false_iff] at h
    have ht : t ≠ "form" := by
      intro hteq
      rw [tagIs] at h
      simp [hteq] at h
    rw [extractFormN, if_neg ht, extractFormF_none cs h.2]
theorem extractFormF_none : ∀ l : List Node, existsNodeF (tagIs "form") l = false →
    extractFormF l = none
  | [], _ => rfl
  | n :: r, h => by
    rw [existsNodeF, Bool.or_eq_false_iff] at h
    rw [extractFormF, extractFormN_noHit n h.1, extractFormF_none r h.2]
    rfl
end

theorem psearchF_soup (hb : Bool) : ∀ l, psearchF hb l = ForestHit.soupHit →
    l.any isTextInput = true ∧ hb = true
  | [], h => by simp [psearchF] at h
  | c :: r, h => by
    rw [psearchF] at h
    by_cases hc : (isTextInput c && hb) = true
    · have hparts : isTextInput c = true ∧ hb = true := by simpa using hc
      exact ⟨by simp [List.any_cons, hparts.1], hparts.2⟩
    · rw [if_neg hc] at h
      cases hn : psearchN c with
      | selfHit => rw [hn] at h; simp at h
      | innerHit f2 c' => rw [hn] at h; simp at h
      | noHit =>
        rw [hn] at h
        cases hr : psearchF hb r with
        | soupHit =>
          have ih := psearchF_soup hb r hr
          exact ⟨by simp [List.any_cons, ih.1], ih.2⟩
        | innerHit f2 r' => rw [hr] at h; simp at h
        | noHit => rw [hr] at h; simp at h

theorem psearchN_self : ∀ nd : Node, psearchN nd = .selfHit →
    ∃ t a cs, nd = Node.elem t a cs ∧ cs.any isTextInput = true ∧
      existsNodeF isButton cs = true
  | .text _, h => by simp [psearchN] at h
  | .elem t a cs, h => by
    rw [psearchN] at h
    cases hf : psearchF (existsNodeF isButton cs) cs with
    | soupHit =>
      have hsp := psearchF_soup _ cs hf
      exact ⟨t, a, cs, rfl, hsp.1, hsp.2⟩
    | innerHit f2 cs' => rw [hf] at h; simp at h
    | noHit => rw [hf] at h; simp at h

mutual
theorem psearchN_inner : ∀ (nd f : Node) (repl : Node), psearchN nd = .innerHit f repl →
    ∃ t a cs, f = Node.elem t a cs ∧ cs.any isTextInput = true ∧
      existsNodeF isButton cs = true
  | .text _, _, _, h => by simp [psearchN] at h
  | .elem t a cs, f, repl, h => by
    rw [psearchN] at h
    cases hf : psearchF (existsNodeF isButton cs) cs with
    | soupHit => rw [hf] at h; simp at h
    | innerHit f2 cs' =>
      rw [hf] at h; simp at h
      obtain ⟨h1, _⟩ := h
      subst h1
      exact psearchF_inner _ cs f2 cs' hf
    | noHit => rw [hf] at h; simp at h
theorem psearchF_inner : ∀ (hb : Bool) (l : List Node) (f : Node) (repl : List Node),
    psearchF hb l = .innerHit f repl →
    ∃ t a cs, f = Node.elem t a cs ∧ cs.any isTextInput = true ∧
      existsNodeF isButton cs = true
  | _, [], _, _, h => by simp [psearchF] at h
  | hb, c :: r, f, repl, h => by
    rw [psearchF] at h
    by_cases hc : (isTextInput c && hb) = true
    · rw [if_pos hc] at h; simp at h
    · rw [if_neg hc] at h
      cases hn : psearchN c with
      | selfHit =>
        rw [hn] at h; simp at h
        obtain ⟨h1, _⟩ := h
        subst h1
        exact psearchN_self c hn
      | innerHit f2 c' =>
        rw [hn] at h; simp at h
        obtain ⟨h1, _⟩ := h
        subst h1
        exact psearchN_inner c f2 c' hn
      | noHit =>
        rw [hn] at h
        cases hr : psearchF hb r with
        | soupHit => rw [hr] at h; simp at h
        | innerHit f2 r' =>
          rw [hr] at h; simp at h
          obtain ⟨h1, _⟩ := h
          subst h1
          exact psearchF_inner hb r f2 r' hr
        | noHit => rw [hr] at h; simp at h
end

/-- Claim C6 (amended): when the document has no form but the
input-parent search hits — i.e. some text input's *immediate parent*
contains a button among its descendants — the extractor detaches that
parent (the lowest common ancestor of that input and such a button) and
returns it serialized together with the document with the parent deleted.
The fragment is always an element with a text-input child and a button
descendant.  (When no text input's immediate parent contains a button the
extractor synthesizes instead, even if an input and a button share a more
distant common ancestor: see the counterexample.) -/
theorem C6_parent_selection (o n : Option String) (doc : List Node) (f : Node)
    (d' : List Node)
    (hform : hasFormF doc = false)
    (h1 : existsNodeF isTextInput doc = true)
    (h2 : existsNodeF isButton doc = true)
    (h3 : psearchF (existsNodeF isButton doc) doc = .innerHit f d') :
    extract_form o n doc = .ok (serializeNode f, d') ∧
    ∃ t a cs, f = Node.elem t a cs ∧ cs.any isTextInput = true ∧
      existsNodeF isButton cs = true := by
  constructor
  · unfold extract_form
    rw [h2] at h3
    rw [extractFormF_none doc hform, h1, h2]
    simp only [Bool.and_self, if_true]
    rw [h3]
  · exact psearchF_inner _ doc f d' h3

/-- Witness for the amended C6: a div holding a text input and a button
is detached as the fragment. -/
theorem C6_parent_selection_witness :
    extract_form (some "O") (some "N")
        [Node.elem "h1" [] [Node.text "T"],
         Node.elem "div" [("id", "w")] [Node.elem "input" [("type", "text")] [],
           Node.elem "button" [] [Node.text "go"]]] =
      .ok ("<div id=\"w\"><input type=\"text\"/><button>go</button></div>",
        [Node.elem "h1" [] [Node.text "T"]]) ∧
    ∃ t a cs, Node.elem "div" [("id", "w")] [Node.elem "input" [("type", "text")] [],
        Node.elem "button" [] [Node.text "go"]] = Node.elem t a cs ∧
      cs.any isTextInput = true ∧ existsNodeF isButton cs = true :=
  C6_parent_selection (some "O") (some "N")
    [Node.elem "h1" [] [Node.text "T"],
     Node.elem "div" [("id", "w")] [Node.elem "input" [("type", "text")] [],
       Node.elem "button" [] [Node.text "go"]]]
    (Node.elem "div" [("id", "w")] [Node.elem "input" [("type", "text")] [],
      Node.elem "button" [] [Node.text "go"]])
    [Node.elem "h1" [] [Node.text "T"]]
    (by decide) (by decide) (by decide) rfl

/-- Counterexample to claim C6 as stated: a document with no form, in
which a text input and a button share the common ancestor `div` (their
lowest common ancestor), but the input's *immediate parent* is a `span`
with no button inside.  The extractor does not detach the LCA: it falls
through to synthesis and returns the document unmodified. -/
theorem C6_counterexample :
    extract_form (some "OW") (some "NM")
        [Node.elem "div" []
          [Node.elem "span" [] [Node.elem "input" [("type", "text")] []],
           Node.elem "button" [] [Node.text "go"]]] =
      .ok (pyReplace (pyReplace default_form "REPO_OWNER" "OW") "REPO_NAME" "NM",
        [Node.elem "div" []
          [Node.elem "span" [] [Node.elem "input" [("type", "text")] []],
           Node.elem "button" [] [Node.text "go"]]]) ∧
    hasFormF [Node.elem "div" []
      [Node.elem "span" [] [Node.elem "input" [("type", "text")] []],
       Node.elem "button" [] [Node.text "go"]]] = false ∧
    existsNodeF isTextInput [Node.elem "div" []
      [Node.elem "span" [] [Node.elem "input" [("type", "text")] []],
       Node.elem "button" [] [Node.text "go"]]] = true ∧
    existsNodeF isButton [Node.elem "div" []
      [Node.elem "span" [] [Node.elem "input" [("type", "text")] []],
       Node.elem "button" [] [Node.text "go"]]] = true :=
  ⟨rfl, rfl, rfl, rfl⟩

/-! ### Content recovery of case 3 -/

mutual
theorem collectMatchesN_tags : ∀ n : Node, ∀ m ∈ collectMatchesN n, isContentTag m = true
  | .text _, m, hm => by simp [collectMatchesN] at hm
  | .elem t a cs, m, hm => by
    rw [collectMatchesN] at hm
    rw [List.mem_append] at hm
    cases hm with
    | inl h1 =>
      by_cases hct : isContentTag (Node.elem t a cs) = true
      · rw [if_pos hct] at h1
        simp at h1
        rw [h1]
        exact hct
      · rw [if_neg hct] at h1
        simp at h1
    | inr h2 => exact collectMatchesF_tags cs m h2
theorem collectMatchesF_tags : ∀ l : List Node, ∀ m ∈ collectMatchesF l, isContentTag m = true
  | [], m, hm => by simp [collectMatchesF] at hm
  | n :: r, m, hm => by
    rw [collectMatchesF, List.mem_append] at hm
    cases hm with
    | inl h1 => exact collectMatchesN_tags n m h1
    | inr h2 => exact collectMatchesF_tags r m h2
end

mutual
theorem collectMatchesN_len : ∀ n : Node,
    (collectMatchesN n).length = countNodesN isContentTag n
  | .text _ => rfl
  | .elem t a cs => by
    have ih := collectMatchesF_len cs
    by_cases hct : isContentTag (Node.elem t a cs) = true
    · rw [collectMatchesN, countNodesN, if_pos hct, if_pos hct,
        List.length_append, ih]
      simp
    · rw [collectMatchesN, countNodesN, if_neg hct, if_neg hct,
        List.length_append, ih]
      simp
theorem collectMatchesF_len : ∀ l : List Node,
    (collectMatchesF l).length = countNodesF isContentTag l
  | [] => rfl
  | n :: r => by
    rw [collectMatchesF, countNodesF, List.length_append,
      collectMatchesN_len n, collectMatchesF_len r]
end

theorem stripInner_tag (m : Node) : isContentTag (stripInner m) = isContentTag m := by
  cases m with
  | text s => rfl
  | elem t a cs => rfl

/-- Counterexample to claim C7 as stated: the candidate
`<span><div>hi</div></span>` has *no top-level* node in the
content-bearing set (its only top-level node is a `span`), so the claim
predicts a body holding the fragment alone; but the source's `find_all`
search is recursive, and the nested `div` is recovered and appended. -/
theorem C7_counterexample :
    hasBodyF [Node.elem "span" [] [Node.elem "div" [] [Node.text "hi"]]] = false ∧
    hasHtmlF [Node.elem "span" [] [Node.elem "div" [] [Node.text "hi"]]] = false ∧
    add_form_back (Node.elem "form" [] [])
        [Node.elem "span" [] [Node.elem "div" [] [Node.text "hi"]]] =
      [Node.elem "html" [] [Node.elem "body" [] [Node.elem "form" [] [],
        Node.elem "div" [] [Node.text "hi"]]]] ∧
    countNodesF (tagIs "div")
      (add_form_back (Node.elem "form" [] [])
        [Node.elem "span" [] [Node.elem "div" [] [Node.text "hi"]]]) = 1 :=
  ⟨rfl, rfl, rfl, rfl⟩

/-- Claim C7 (amended): for a candidate with neither `html` nor `body`
anywhere, the re-inserter builds a minimal html/body skeleton with the
fragment as the body's first child, followed by the recovered content:
every node of the candidate whose tag is in the content-bearing set,
found by *recursive* search in document order (nested matches are moved
out of their enclosing match), everything else discarded.  Each recovered
node carries a content-bearing tag, and there are exactly as many of them
as matching nodes in the candidate. -/
theorem C7_skeleton_recovery (f : Node) (cand : List Node)
    (hb : hasBodyF cand = false) (hh : hasHtmlF cand = false) :
    add_form_back f cand =
      [Node.elem "html" [] [Node.elem "body" [] (f :: recoveredContent cand)]] ∧
    (∀ m ∈ recoveredContent cand, isContentTag m = true) ∧
    (recoveredContent cand).length = countNodesF isContentTag cand := by
  refine ⟨?_, ?_, ?_⟩
  · unfold add_form_back
    rw [insBodyF_eq_none f cand hb, appBodyF_eq_none f cand hh]
  · intro m hm
    rw [recoveredContent] at hm
    obtain ⟨m0, hm0, hms⟩ := List.mem_map.mp hm
    rw [← hms, stripInner_tag]
    exact collectMatchesF_tags cand m0 hm0
  · rw [recoveredContent, List.length_map]
    exact collectMatchesF_len cand

/-- Witness for the amended C7 at the claim's own example, the bare
candidate `<div>hi</div>`: the body's first child is the fragment and its
second child is the div. -/
theorem C7_skeleton_recovery_witness :
    add_form_back (Node.elem "form" [] []) [Node.elem "div" [] [Node.text "hi"]] =
      [Node.elem "html" [] [Node.elem "body" [] [Node.elem "form" [] [],
        Node.elem "div" [] [Node.text "hi"]]]] ∧
    (recoveredContent [Node.elem "div" [] [Node.text "hi"]]).length =
      countNodesF isContentTag [Node.elem "div" [] [Node.text "hi"]] := by
  have h := C7_skeleton_recovery (Node.elem "form" [] [])
    [Node.elem "div" [] [Node.text "hi"]] (by decide) (by decide)
  exact ⟨h.1, h.2.2⟩

theorem repGo_append_skip (pat rep : List Char) (hpat : pat ≠ []) :
    ∀ A B : List Char, (∀ c ∈ A, pat.head? ≠ some c) →
      repGo pat rep 0 (A ++ B) = A ++ repGo pat rep 0 B
  | [], _, _ => by simp
  | c :: A', B, hA => by
    cases hp : pat with
    | nil => exact absurd hp hpat
    | cons p ps =>
      subst hp
      have hpc : p ≠ c := by
        have hd := hA c (by simp)
        simpa using hd
      have hlead : leadSeq (p :: ps) (c :: (A' ++ B)) = false := by
        rw [leadSeq]
        simp [hpc]
      rw [List.cons_append, repGo, if_neg (by simp [hlead])]
      rw [repGo_append_skip (p :: ps) rep hpat A' B (fun d hd => hA d (by simp [hd]))]
      rfl

theorem leadSeq_split (pat : List Char) : ∀ (X : List Char) (y : Char) (Y : List Char),
    leadSeq pat (X ++ y :: Y) = true → leadSeq pat X = true ∨ y ∈ pat := by
  induction pat with
  | nil => intro X y Y _; exact Or.inl rfl
  | cons p ps ih =>
    intro X y Y h
    cases X with
    | nil =>
      rw [List.nil_append, leadSeq] at h
      have hp : p = y := by
        have := (Bool.and_eq_true _ _).mp h
        simpa using this.1
      exact Or.inr (by simp [hp])
    | cons x X' =>
      rw [List.cons_append, leadSeq] at h
      have hparts := (Bool.and_eq_true _ _).mp h
      cases ih X' y Y hparts.2 with
      | inl h1 => exact Or.inl (by rw [leadSeq]; simp [hparts.1, h1])
      | inr h2 => exact Or.inr (by simp [h2])

theorem repGo_append_over (pat rep : List Char) (hslash : '/' ∉ pat) :
    ∀ o B : List Char, hasSeq pat o = false →
      repGo pat rep 0 (o ++ '/' :: B) = o ++ repGo pat rep 0 ('/' :: B)
  | [], _, _ => by simp
  | c :: o', B, ho => by
    rw [hasSeq, Bool.or_eq_false_iff] at ho
    have hlead : leadSeq pat ((c :: o') ++ '/' :: B) = false := by
      cases hq : leadSeq pat ((c :: o') ++ '/' :: B) with
      | false => rfl
      | true =>
        cases leadSeq_split pat (c :: o') '/' B hq with
        | inl h1 => rw [ho.1] at h1; exact absurd h1 (by simp)
        | inr h2 => exact absurd h2 hslash
    rw [List.cons_append, repGo,
      if_neg (by simpa using hlead)]
    rw [repGo_append_over pat rep hslash o' B ho.2]
    rfl

set_option maxRecDepth 20000 in
/-- The two-step `str.replace` of the synthesis fallback, computed: when
the owner value does not itself contain the letters `REPO_NAME`, the
result is the template with the owner and name spliced in verbatim. -/
theorem default_replaced (o n : String)
    (ho : hasSeq "REPO_NAME".data o.data = false) :
    pyReplace (pyReplace default_form "REPO_OWNER" o) "REPO_NAME" n =
      String.mk (dfltPre.data ++ (o.data ++ ('/' :: (n.data ++ dfltPost.data)))) := by
  have h1 : pyReplace default_form "REPO_OWNER" o =
      String.mk (dfltPre.data ++ (o.data ++
        ('/' :: ("REPO_NAME".data ++ dfltPost.data)))) := rfl
  rw [h1]
  show String.mk (repGo "REPO_NAME".data n.data 0
      (dfltPre.data ++ (o.data ++ ('/' :: ("REPO_NAME".data ++ dfltPost.data))))) = _
  have h2 := repGo_append_skip "REPO_NAME".data n.data (by decide)
    dfltPre.data (o.data ++ ('/' :: ("REPO_NAME".data ++ dfltPost.data)))
    (by decide)
  rw [h2]
  have h3 := repGo_append_over "REPO_NAME".data n.data (by decide)
    o.data ("REPO_NAME".data ++ dfltPost.data) ho
  rw [h3]
  have h4 : repGo "REPO_NAME".data n.data 0
      ('/' :: ("REPO_NAME".data ++ dfltPost.data)) =
      '/' :: (n.data ++ dfltPost.data) := rfl
  rw [h4]

set_option maxRecDepth 20000 in
/-- Claim C8: for every document with neither a form nor a text-input /
button pair, the extractor synthesizes the default fragment — whose form
action URL embeds the configured owner and name verbatim between the
issue-endpoint host `https://github.com/` and path `/issues/new` — and
returns the document unmodified.  (The side condition `ho` rules out an
owner value that itself contains the letters `REPO_NAME`, which the
second `str.replace` would rewrite; repository owner identifiers cannot
contain an underscore.) -/
theorem C8_default_fragment (o n : String) (doc : List Node)
    (hform : hasFormF doc = false)
    (hpair : existsNodeF isTextInput doc = false ∨ existsNodeF isButton doc = false)
    (ho : hasSeq "REPO_NAME".data o.data = false) :
    extract_form (some o) (some n) doc =
      .ok (String.mk (dfltPre.data ++ (o.data ++ ('/' :: (n.data ++ dfltPost.data)))),
        doc) ∧
    dfltPre = dfltPre0 ++ "https://github.com/" ∧
    leadSeq "/issues/new".data dfltPost.data = true := by
  refine ⟨?_, rfl, rfl⟩
  unfold extract_form
  rw [extractFormF_none doc hform]
  have hgate : (existsNodeF isTextInput doc && existsNodeF isButton doc) = false := by
    cases hpair with
    | inl h => rw [h]; simp
    | inr h => rw [h]; simp
  rw [hgate]
  simp only [Bool.false_eq_true, if_false]
  unfold synthDefault
  show Except.ok (pyReplace (pyReplace default_form "REPO_OWNER" o) "REPO_NAME" n, doc) = _
  rw [default_replaced o n ho]

set_option maxRecDepth 20000 in
/-- Witness for C8: a formless, inputless document with owner `alice` and
name `site`. -/
theorem C8_default_fragment_witness :
    extract_form (some "alice") (some "site") [Node.elem "p" [] [Node.text "x"]] =
      .ok (String.mk (dfltPre.data ++
          ("alice".data ++ ('/' :: ("site".data ++ dfltPost.data)))),
        [Node.elem "p" [] [Node.text "x"]]) ∧
    dfltPre = dfltPre0 ++ "https://github.com/" ∧
    leadSeq "/issues/new".data dfltPost.data = true :=
  C8_default_fragment "alice" "site" [Node.elem "p" [] [Node.text "x"]]
    (by decide) (Or.inl (by decide)) (by decide)
